import Mathlib

/-!
# PolynomialSpace (deal.II, `base/source/polynomial_space.cc`)

A shallow embedding of the total-degree polynomial space of deal.II and the
verification of its index enumeration and of its tensor-product evaluation.

Conventions of the embedding.

* The template parameter `dim` is an explicit first argument.
* `unsigned int` is `Nat`.  The only subtractions of the source, `n_1d-iz` and
  `n_1d-iy-iz`, are evaluated under loop guards that keep them from
  underflowing, so truncated subtraction on `Nat` agrees with the source.
  `compute_n_pols` is given twice: over unbounded naturals, and as
  `compute_n_pols_u32` in the 32-bit wrap-around arithmetic of the program;
  `n_pols_u32` is the member `n_pols` as the program holds it.  It never
  exceeds the unbounded value, and the two agree when no product wraps.
* A counted `for` loop whose bound does not change in its body is a fold over
  `List.range bound`; a `return` from inside a loop nest is the `error` case of
  `Except`, which stops the fold.
* `double` is an arbitrary type `R` with `*`, `1` and `0`; theorems name the
  algebraic laws they need.
* `Point<dim>` and `Tensor<1,dim>` are functions `Nat → R`, `Tensor<2,dim>` is
  `Nat → Nat → R`; only components with index below `dim` are meaningful.
* `std::vector` is `List`; `v[j]` is `List.getD v j 0` and `v[k] = x` is
  `List.set v k x`.
-/

namespace PolynomialSpace

/-! ## The one-dimensional polynomials (external collaborator) -/

/-- Modelled from the spec: the class `Polynomial<double>` (base/polynomial.h)
is not part of the shown sources.  `value x` is the single-argument
`value(x)`.  `value_entry size x j` is the number that the two-argument
`value(x, values)` stores at position `j` of a vector `values` holding `size`
entries (the derivative of order `j`). -/
structure Polynomial (R : Type) where
  value : R → R
  value_entry : Nat → R → Nat → R

/-- The two-argument `value(x, values)`: every entry of `values` is overwritten,
the length of the vector is kept. -/
def Polynomial.values {R : Type} (P : Polynomial R) (x : R) (values : List R) : List R :=
  (List.range values.length).map (P.value_entry values.length x)

/-- The 1-D polynomial answers with the same derivative of order `j` however
many derivatives are requested, and the single-argument `value` is the
derivative of order zero. -/
def Polynomial.Coherent {R : Type} (P : Polynomial R) : Prop :=
  (∀ x, P.value x = P.value_entry 1 x 0) ∧
  ∀ size size' x j, j < size → j < size' → P.value_entry size x j = P.value_entry size' x j

end PolynomialSpace

/-- The data members of `PolynomialSpace<dim>`: the vector `polynomials` is
given by its size `n_1d` and its indexing function. -/
structure PolynomialSpace (R : Type) where
  n_1d : Nat
  polynomials : Nat → PolynomialSpace.Polynomial R

namespace PolynomialSpace

/-! ## Dimension of the space -/

/-- Source function `PolynomialSpace<dim>::compute_n_pols`, over unbounded
naturals. -/
def compute_n_pols (dim n : Nat) : Nat :=
  (List.range' 1 (dim - 1)).foldl (fun n_pols i => n_pols * (n + i) / (i + 1)) n

/-- Modelled from the spec: the member `n_pols`, set once by the constructor
(base/polynomial_space.h, not shown) to `compute_n_pols(n_1d)`, here with
`compute_n_pols` over unbounded naturals; `n_pols_u32` is the 32-bit value that
the program holds, equal to this one when no product wraps around. -/
def n_pols {R : Type} (dim : Nat) (S : PolynomialSpace R) : Nat :=
  compute_n_pols dim S.n_1d

/-! ## Index bijection -/

/-- The loop nest of `compute_index`.  The state of the fold is the counter
`k`; `error (ix, iy, iz)` is the `return` after the three assignments, and
`ok k` means that the loops ran to their end without returning. -/
def compute_index_scan (dim n_1d n : Nat) : Except (Nat × Nat × Nat) Nat :=
  (List.range (if dim > 2 then n_1d else 1)).foldlM (fun k iz =>
    (List.range (if dim > 1 then n_1d - iz else 1)).foldlM (fun k iy =>
      (List.range (n_1d - iy - iz)).foldlM (fun k ix =>
        if k = n then Except.error (ix, iy, iz) else Except.ok (k + 1)) k) k) 0

/-- Source function `PolynomialSpace<dim>::compute_index`: `nx ny nz` are the contents of the
three reference arguments before the call, the result is their contents
`(nx, ny, nz)` after it. -/
def compute_index (dim n_1d n : Nat) (nx ny nz : Nat) : Nat × Nat × Nat :=
  match compute_index_scan dim n_1d n with
  | Except.error t => t
  | Except.ok _ => (nx, ny, nz)

/-- Component `a` of a multi-index `(ix, iy, iz)`: `ix` for axis 0, `iy` for
axis 1, `iz` for axis 2. -/
def axis_index (t : Nat × Nat × Nat) (a : Nat) : Nat :=
  if a = 0 then t.1 else if a = 1 then t.2.1 else t.2.2

/-! ## Single-index evaluation -/

section Evaluation

variable {R : Type} [Mul R] [One R] [Zero R]

/-- Source function `PolynomialSpace<dim>::compute_value`. -/
def compute_value (dim : Nat) (S : PolynomialSpace R) (i : Nat) (p : Nat → R) : R :=
  let t := compute_index dim S.n_1d i 0 0 0
  let ix := t.1
  let iy := t.2.1
  let iz := t.2.2
  let result := (S.polynomials ix).value (p 0)
  let result := if dim > 1 then result * (S.polynomials iy).value (p 1) else result
  let result := if dim > 2 then result * (S.polynomials iz).value (p 2) else result
  result

/-- The local array `unsigned int ix[3]` after `compute_index(i,ix[0],ix[1],ix[2])`;
`junk` is its indeterminate content before the call. -/
def index_array (dim n_1d i : Nat) (junk : Nat × Nat × Nat) : Nat → Nat :=
  let t := compute_index dim n_1d i junk.1 junk.2.1 junk.2.2
  fun d => axis_index t d

/-- Source function `PolynomialSpace<dim>::compute_grad`. -/
def compute_grad (dim : Nat) (S : PolynomialSpace R) (i : Nat) (p : Nat → R)
    (junk : Nat × Nat × Nat) : Nat → R :=
  let ix := index_array dim S.n_1d i junk
  let result : Nat → R := fun _ => 0
  let result := (List.range dim).foldl (fun result d => Function.update result d 1) result
  (List.range dim).foldl (fun result d =>
    let v := (S.polynomials (ix d)).values (p d) (List.replicate 2 0)
    let result := Function.update result d (result d * v.getD 1 0)
    (List.range dim).foldl (fun result d1 =>
      if d1 ≠ d then Function.update result d1 (result d1 * v.getD 0 0) else result) result)
    result

/-- The assignment `t[a][b] = x` on a `Tensor<2,dim>`. -/
def set2 (t : Nat → Nat → R) (a b : Nat) (x : R) : Nat → Nat → R :=
  Function.update t a (Function.update (t a) b x)

/-- Source function `PolynomialSpace<dim>::compute_grad_grad`. -/
def compute_grad_grad (dim : Nat) (S : PolynomialSpace R) (i : Nat) (p : Nat → R)
    (junk : Nat × Nat × Nat) : Nat → Nat → R :=
  let ix := index_array dim S.n_1d i junk
  let result : Nat → Nat → R := fun _ _ => 0
  let result := (List.range dim).foldl (fun result d =>
    (List.range dim).foldl (fun result d1 => set2 result d d1 1) result) result
  (List.range dim).foldl (fun result d =>
    let v := (S.polynomials (ix d)).values (p d) (List.replicate 3 0)
    let result := set2 result d d (result d d * v.getD 2 0)
    (List.range dim).foldl (fun result d1 =>
      if d1 ≠ d then
        let result := set2 result d d1 (result d d1 * v.getD 1 0)
        let result := set2 result d1 d (result d1 d * v.getD 1 0)
        (List.range dim).foldl (fun result d2 =>
          if d2 ≠ d then set2 result d1 d2 (result d1 d2 * v.getD 0 0) else result) result
      else result) result)
    result

/-! ## Bulk evaluation -/

/-- The arguments of the exception `ExcDimensionMismatch2` raised by a failed
size assertion. -/
structure ExcDimensionMismatch2 where
  arg1 : Nat
  arg2 : Nat
  arg3 : Nat
deriving DecidableEq

/-- The three output vectors of `compute`. -/
structure Outputs (R : Type) where
  values : List R
  grads : List (Nat → R)
  grad_grads : List (Nat → Nat → R)

/-- State of one sweep of `compute`: the running counter `k`, the output vector
`out`, and (ghost state, absent from the source) the `log` of the index paths
of the stores made so far, in program order: `[k]` for `values[k] = ..`,
`[k, d]` for `grads[k][d] = ..`, `[k, d1, d2]` for `grad_grads[k][d1][d2] = ..`. -/
structure Sweep (α : Type) where
  k : Nat
  out : List α
  log : List (List Nat)

/-- The table `v` of `compute`, built by the double loop over `d` and `i`:
`v_table .. d i` is the vector `v(d,i)` after `resize (v_size, 0.)` and
`polynomials[i].value(p(d), v(d,i))`. -/
def v_table (dim : Nat) (S : PolynomialSpace R) (p : Nat → R) (v_size : Nat) :
    List (List (List R)) :=
  (List.range dim).map (fun d =>
    (List.range S.n_1d).map (fun i =>
      (S.polynomials i).values (p d) (List.replicate v_size 0)))

/-- The table read `v[d][i][o]`. -/
def v_at (v : List (List (List R))) (d i o : Nat) : R :=
  ((v.getD d []).getD i []).getD o 0

/-- The block `if (update_values) { .. }` of `compute`. -/
def values_sweep (dim n_1d : Nat) (v : List (List (List R))) (values : List R) : Sweep R :=
  (List.range (if dim > 2 then n_1d else 1)).foldl (fun s iz =>
    (List.range (if dim > 1 then n_1d - iz else 1)).foldl (fun s iy =>
      (List.range (n_1d - iy - iz)).foldl (fun s ix =>
        { k := s.k + 1
          out := s.out.set s.k
            (v_at v 0 ix 0
              * (if dim > 1 then v_at v 1 iy 0 else 1)
              * (if dim > 2 then v_at v 2 iz 0 else 1))
          log := s.log ++ [[s.k]] }) s) s) ⟨0, values, []⟩

/-- The assignment `grads[k][d] = x`. -/
def store1 (s : Sweep (Nat → R)) (d : Nat) (x : R) : Sweep (Nat → R) :=
  { k := s.k
    out := s.out.modify (fun t => Function.update t d x) s.k
    log := s.log ++ [[s.k, d]] }

/-- The block `if (update_grads) { .. }` of `compute`. -/
def grads_sweep (dim n_1d : Nat) (v : List (List (List R))) (grads : List (Nat → R)) :
    Sweep (Nat → R) :=
  (List.range (if dim > 2 then n_1d else 1)).foldl (fun s iz =>
    (List.range (if dim > 1 then n_1d - iz else 1)).foldl (fun s iy =>
      (List.range (n_1d - iy - iz)).foldl (fun s ix =>
        let s := (List.range dim).foldl (fun s d =>
          store1 s d
            (v_at v 0 ix (if d = 0 then 1 else 0)
              * (if dim > 1 then v_at v 1 iy (if d = 1 then 1 else 0) else 1)
              * (if dim > 2 then v_at v 2 iz (if d = 2 then 1 else 0) else 1))) s
        { s with k := s.k + 1 }) s) s) ⟨0, grads, []⟩

/-- The assignment `grad_grads[k][d1][d2] = x`. -/
def store2 (s : Sweep (Nat → Nat → R)) (d1 d2 : Nat) (x : R) : Sweep (Nat → Nat → R) :=
  { k := s.k
    out := s.out.modify (fun t => set2 t d1 d2 x) s.k
    log := s.log ++ [[s.k, d1, d2]] }

/-- The block `if (update_grad_grads) { .. }` of `compute`. -/
def grad_grads_sweep (dim n_1d : Nat) (v : List (List (List R)))
    (grad_grads : List (Nat → Nat → R)) : Sweep (Nat → Nat → R) :=
  (List.range (if dim > 2 then n_1d else 1)).foldl (fun s iz =>
    (List.range (if dim > 1 then n_1d - iz else 1)).foldl (fun s iy =>
      (List.range (n_1d - iy - iz)).foldl (fun s ix =>
        let s := (List.range dim).foldl (fun s d1 =>
          (List.range dim).foldl (fun s d2 =>
            let j0 := (if d1 = 0 then 1 else 0) + (if d2 = 0 then 1 else 0)
            let j1 := (if d1 = 1 then 1 else 0) + (if d2 = 1 then 1 else 0)
            let j2 := (if d1 = 2 then 1 else 0) + (if d2 = 2 then 1 else 0)
            store2 s d1 d2
              (v_at v 0 ix j0
                * (if dim > 1 then v_at v 1 iy j1 else 1)
                * (if dim > 2 then v_at v 2 iz j2 else 1))) s) s
        { s with k := s.k + 1 }) s) s) ⟨0, grad_grads, []⟩

/-- Modelled from the spec: the macro `Assert(cond, exc)` (base/exceptions.h, not
shown), the assertion facility that rejects a violated condition: the call
ends with the exception `exc`. -/
def Assert (cond : Prop) [Decidable cond] (exc : ExcDimensionMismatch2) :
    Except ExcDimensionMismatch2 Unit :=
  if cond then Except.ok () else Except.error exc

/-- The three size assertions at the head of `compute`, in program order. -/
def compute_assertions (dim : Nat) (S : PolynomialSpace R) (o : Outputs R) :
    Except ExcDimensionMismatch2 Unit := do
  Assert (o.values.length = n_pols dim S ∨ o.values.length = 0)
    ⟨o.values.length, n_pols dim S, 0⟩
  Assert (o.grads.length = n_pols dim S ∨ o.grads.length = 0)
    ⟨o.grads.length, n_pols dim S, 0⟩
  Assert (o.grad_grads.length = n_pols dim S ∨ o.grad_grads.length = 0)
    ⟨o.grad_grads.length, n_pols dim S, 0⟩

/-- Source function `PolynomialSpace<dim>::compute`.  The result is the outcome of the call
together with the contents of the three output vectors after it. -/
def compute (dim : Nat) (S : PolynomialSpace R) (p : Nat → R) (o : Outputs R) :
    Except ExcDimensionMismatch2 Unit × Outputs R :=
  let n_1d := S.n_1d
  match compute_assertions dim S o with
  | Except.error exc => (Except.error exc, o)
  | Except.ok _ =>
    let v_size := 0
    let update_values := decide (o.values.length = n_pols dim S)
    let v_size := if o.values.length = n_pols dim S then 1 else v_size
    let update_grads := decide (o.grads.length = n_pols dim S)
    let v_size := if o.grads.length = n_pols dim S then 2 else v_size
    let update_grad_grads := decide (o.grad_grads.length = n_pols dim S)
    let v_size := if o.grad_grads.length = n_pols dim S then 3 else v_size
    let v := v_table dim S p v_size
    let values := if update_values then (values_sweep dim n_1d v o.values).out else o.values
    let grads := if update_grads then (grads_sweep dim n_1d v o.grads).out else o.grads
    let grad_grads :=
      if update_grad_grads then (grad_grads_sweep dim n_1d v o.grad_grads).out else o.grad_grads
    (Except.ok (), ⟨values, grads, grad_grads⟩)

end Evaluation

/-! ## Specification-level notions -/

/-- The canonical enumeration order as a list: the multi-indices `(ix, iy, iz)`
in the order in which the loop nest shared by `compute_index` and the sweeps of
`compute` visits them. -/
def enumeration (dim n_1d : Nat) : List (Nat × Nat × Nat) :=
  (List.range (if dim > 2 then n_1d else 1)).flatMap (fun iz =>
    (List.range (if dim > 1 then n_1d - iz else 1)).flatMap (fun iy =>
      (List.range (n_1d - iy - iz)).map (fun ix => (ix, iy, iz))))

/-- A valid multi-index `(ix, iy, iz)`: total degree below `n_1d`, axes at or
beyond `dim` fixed at 0. -/
def Valid (dim n_1d : Nat) (t : Nat × Nat × Nat) : Prop :=
  t.1 + t.2.1 + t.2.2 < n_1d ∧ (dim ≤ 1 → t.2.1 = 0) ∧ (dim ≤ 2 → t.2.2 = 0)

instance (dim n_1d : Nat) : DecidablePred (Valid dim n_1d) :=
  fun _ => inferInstanceAs (Decidable (_ ∧ _))

/-- The order of the canonical enumeration: `s` comes before `t` when
`(iz, iy, ix)` of `s` is lexicographically smaller, `iz` most significant. -/
def Precedes (s t : Nat × Nat × Nat) : Prop :=
  s.2.2 < t.2.2 ∨ (s.2.2 = t.2.2 ∧ (s.2.1 < t.2.1 ∨ (s.2.1 = t.2.1 ∧ s.1 < t.1)))

instance : DecidableRel Precedes :=
  fun _ _ => inferInstanceAs (Decidable (_ ∨ _))

/-- Specification of the inverse direction (multi-index to linear index, by
counting): the number of valid multi-indices that precede `t` in the canonical
enumeration order. -/
def encode_by_count (dim n_1d : Nat) (t : Nat × Nat × Nat) : Nat :=
  ((Finset.range n_1d ×ˢ Finset.range n_1d ×ˢ Finset.range n_1d).filter
    (fun s => Valid dim n_1d s ∧ Precedes s t)).card

/-- The derivative order that the second derivative along `d1` and `d2` takes on
axis `a`: how many of `d1`, `d2` equal `a`. -/
def axis_order (a d1 d2 : Nat) : Nat :=
  (if d1 = a then 1 else 0) + (if d2 = a then 1 else 0)

/-- The value that the values sweep of `compute` stores for the multi-index
`t = (ix, iy, iz)`. -/
def bulk_value {R : Type} [Mul R] [One R] [Zero R] (dim : Nat) (v : List (List (List R)))
    (t : Nat × Nat × Nat) : R :=
  v_at v 0 t.1 0 * (if dim > 1 then v_at v 1 t.2.1 0 else 1)
    * (if dim > 2 then v_at v 2 t.2.2 0 else 1)

/-- The component `d` that the gradients sweep of `compute` stores for the
multi-index `t = (ix, iy, iz)`. -/
def bulk_grad {R : Type} [Mul R] [One R] [Zero R] (dim : Nat) (v : List (List (List R)))
    (t : Nat × Nat × Nat) (d : Nat) : R :=
  v_at v 0 t.1 (if d = 0 then 1 else 0)
    * (if dim > 1 then v_at v 1 t.2.1 (if d = 1 then 1 else 0) else 1)
    * (if dim > 2 then v_at v 2 t.2.2 (if d = 2 then 1 else 0) else 1)

/-- The entry `[d1][d2]` that the Hessians sweep of `compute` stores for the
multi-index `t = (ix, iy, iz)`. -/
def bulk_grad_grad {R : Type} [Mul R] [One R] [Zero R] (dim : Nat) (v : List (List (List R)))
    (t : Nat × Nat × Nat) (d1 d2 : Nat) : R :=
  v_at v 0 t.1 ((if d1 = 0 then 1 else 0) + (if d2 = 0 then 1 else 0))
    * (if dim > 1 then v_at v 1 t.2.1 ((if d1 = 1 then 1 else 0) + (if d2 = 1 then 1 else 0))
        else 1)
    * (if dim > 2 then v_at v 2 t.2.2 ((if d1 = 2 then 1 else 0) + (if d2 = 2 then 1 else 0))
        else 1)

/-- The product of the factors `f a` of the axes `a < dim`, multiplied up in
axis order from `1`, as the single-index evaluators do: `((1 * f 0) * f 1) * f 2`
for `dim = 3`.  No law of `*` is used. -/
def axis_product {R : Type} [Mul R] [One R] (dim : Nat) (f : Nat → R) : R :=
  (List.range dim).foldl (fun acc a => acc * f a) 1

/-- The monomial `t ^ i` over the integers as a 1-D polynomial: its value, and
its derivative of order `j`, `i (i-1) .. (i-j+1) t ^ (i-j)`. -/
def monomial (i : Nat) : Polynomial Int :=
  { value := fun t => t ^ i
    value_entry := fun _ t j => (Nat.descFactorial i j : Int) * t ^ (i - j) }

/-- The space of the concrete case of the spec: the monomials `1, t, t^2`. -/
def monomials3 : PolynomialSpace Int :=
  { n_1d := 3, polynomials := monomial }

/-! ## Further notions for the table, the machine arithmetic and the reals -/

/-- The local `v_size` of `compute` after the three `if` blocks that set the
update flags. -/
def compute_v_size {R : Type} (dim : Nat) (S : PolynomialSpace R) (o : Outputs R) : Nat :=
  let v_size := 0
  let v_size := if o.values.length = n_pols dim S then 1 else v_size
  let v_size := if o.grads.length = n_pols dim S then 2 else v_size
  let v_size := if o.grad_grads.length = n_pols dim S then 3 else v_size
  v_size

/-- The cell `v(d,i)` of the table of `compute`, a vector of numbers. -/
def v_cell {R : Type} (v : List (List (List R))) (d i : Nat) : List R :=
  (v.getD d []).getD i []

/-- The table reads `v[d][i][o]`, as triples `(d, i, o)`, that the values sweep
of `compute` makes at the multi-index `t = (ix, iy, iz)`: the reads under
`(dim>1) ? .. : 1.` and `(dim>2) ? .. : 1.` happen only when the condition
holds. -/
def values_reads (dim : Nat) (t : Nat × Nat × Nat) : List (Nat × Nat × Nat) :=
  [(0, t.1, 0)] ++ (if dim > 1 then [(1, t.2.1, 0)] else [])
    ++ (if dim > 2 then [(2, t.2.2, 0)] else [])

/-- The table reads `(d, i, o)` that the gradients sweep of `compute` makes at
the multi-index `t = (ix, iy, iz)`, over its loop on `d`. -/
def grads_reads (dim : Nat) (t : Nat × Nat × Nat) : List (Nat × Nat × Nat) :=
  (List.range dim).flatMap (fun d =>
    [(0, t.1, if d = 0 then 1 else 0)]
      ++ (if dim > 1 then [(1, t.2.1, if d = 1 then 1 else 0)] else [])
      ++ (if dim > 2 then [(2, t.2.2, if d = 2 then 1 else 0)] else []))

/-- The table reads `(d, i, o)` that the Hessians sweep of `compute` makes at
the multi-index `t = (ix, iy, iz)`, over its loops on `d1` and `d2`. -/
def grad_grads_reads (dim : Nat) (t : Nat × Nat × Nat) : List (Nat × Nat × Nat) :=
  (List.range dim).flatMap (fun d1 =>
    (List.range dim).flatMap (fun d2 =>
      let j0 := (if d1 = 0 then 1 else 0) + (if d2 = 0 then 1 else 0)
      let j1 := (if d1 = 1 then 1 else 0) + (if d2 = 1 then 1 else 0)
      let j2 := (if d1 = 2 then 1 else 0) + (if d2 = 2 then 1 else 0)
      [(0, t.1, j0)] ++ (if dim > 1 then [(1, t.2.1, j1)] else [])
        ++ (if dim > 2 then [(2, t.2.2, j2)] else [])))

/-- State of `compute_n_pols` in 32-bit arithmetic: the variable `n_pols`, and
(ghost state, absent from the source) whether some sum or product computed so
far exceeded the range of `unsigned int` and wrapped around. -/
structure NPols32 where
  n_pols : Nat
  wrapped : Bool
deriving DecidableEq

/-- Source function `PolynomialSpace<dim>::compute_n_pols` with `unsigned int`
as 32-bit wrap-around arithmetic; the argument `n` is a 32-bit value. -/
def compute_n_pols_u32 (dim n : Nat) : NPols32 :=
  (List.range' 1 (dim - 1)).foldl (fun s i =>
    { n_pols := s.n_pols * ((n + i) % 2 ^ 32) % 2 ^ 32 / ((i + 1) % 2 ^ 32)
      wrapped := s.wrapped || decide (2 ^ 32 ≤ n + i)
        || decide (2 ^ 32 ≤ s.n_pols * ((n + i) % 2 ^ 32)) }) ⟨n, false⟩

/-- Specification: the true number of multi-indices, the number of triples
`(a,b,c)` of naturals with `a+b+c < n_1d` and the axes at or beyond `dim` fixed
at 0. -/
def count_multi_indices (dim n_1d : Nat) : Nat :=
  ((Finset.range n_1d ×ˢ Finset.range n_1d ×ˢ Finset.range n_1d).filter
    (fun t => Valid dim n_1d t)).card

/-- The monomial `t ^ i` over the reals as a 1-D polynomial, with its exact
derivatives. -/
def real_monomial (i : Nat) : Polynomial Real :=
  { value := fun t => t ^ i
    value_entry := fun _ t j => (Nat.descFactorial i j : Real) * t ^ (i - j) }

/-- The monomials `1, t, t^2` over the reals. -/
def real_monomials3 : PolynomialSpace Real :=
  { n_1d := 3, polynomials := real_monomial }

/-- Modelled from the spec: the member `n_pols` as the program holds it: the
constructor (base/polynomial_space.h, not shown) sets it to
`compute_n_pols(n_1d)`, which the program evaluates in 32-bit arithmetic. -/
def n_pols_u32 (dim n_1d : Nat) : Nat :=
  (compute_n_pols_u32 dim n_1d).n_pols

/-- A space of 65536 monomials `1, t, .., t^65535` over the integers, the
smallest size at which `compute_n_pols` wraps around for `dim = 2`. -/
def monomials65536 : PolynomialSpace Int :=
  { n_1d := 65536, polynomials := monomial }

/-! # Verification -/

/-! ## The loop nest as a fold over the canonical enumeration -/

theorem foldl_flatMap_eq {α β σ : Type} (f : σ → β → σ) (g : α → List β) (l : List α) (s : σ) :
    (l.flatMap g).foldl f s = l.foldl (fun s a => (g a).foldl f s) s := by
  induction l generalizing s with
  | nil => rfl
  | cons a l ih => simp [List.flatMap_cons, List.foldl_append, ih]

theorem foldlM_flatMap_eq {ε α β σ : Type} (f : σ → β → Except ε σ) (g : α → List β)
    (l : List α) (s : σ) :
    (l.flatMap g).foldlM f s = l.foldlM (fun s a => (g a).foldlM f s) s := by
  induction l generalizing s with
  | nil => rfl
  | cons a l ih => simp [List.flatMap_cons, List.foldlM_append, ih]

theorem compute_index_scan_eq (dim n_1d n : Nat) :
    compute_index_scan dim n_1d n =
      (enumeration dim n_1d).foldlM
        (fun k t => if k = n then Except.error t else Except.ok (k + 1)) 0 := by
  simp only [enumeration, foldlM_flatMap_eq, List.foldlM_map]
  rfl

theorem scan_list (n : Nat) (l : List (Nat × Nat × Nat)) (k0 : Nat) (h : k0 ≤ n) :
    l.foldlM (fun k t => if k = n then Except.error t else Except.ok (k + 1)) k0 =
      match l[n - k0]? with
      | some t => Except.error t
      | none => Except.ok (k0 + l.length) := by
  induction l generalizing k0 with
  | nil => rfl
  | cons t l ih =>
    rw [List.foldlM_cons]
    by_cases hk : k0 = n
    · subst hk
      simp
      rfl
    · have h1 : k0 + 1 ≤ n := by omega
      have h2 : n - k0 = (n - (k0 + 1)) + 1 := by omega
      rw [if_neg hk, h2, List.getElem?_cons_succ]
      have := ih (k0 + 1) h1
      simp only [List.length_cons]
      rw [show k0 + (l.length + 1) = k0 + 1 + l.length by omega, ← this]
      rfl

theorem compute_index_scan_lt (dim n_1d n : Nat) (h : n < (enumeration dim n_1d).length) :
    compute_index_scan dim n_1d n = Except.error ((enumeration dim n_1d)[n]) := by
  rw [compute_index_scan_eq, scan_list n _ 0 (Nat.zero_le n)]
  simp [h]

theorem compute_index_scan_ge (dim n_1d n : Nat) (h : (enumeration dim n_1d).length ≤ n) :
    compute_index_scan dim n_1d n = Except.ok (enumeration dim n_1d).length := by
  rw [compute_index_scan_eq, scan_list n _ 0 (Nat.zero_le n)]
  simp [List.getElem?_eq_none h]

theorem compute_index_lt (dim n_1d n nx ny nz : Nat) (h : n < (enumeration dim n_1d).length) :
    compute_index dim n_1d n nx ny nz = (enumeration dim n_1d)[n] := by
  simp [compute_index, compute_index_scan_lt dim n_1d n h]

/-! ## Facts about the canonical enumeration -/

theorem mem_enumeration (dim n_1d : Nat) (t : Nat × Nat × Nat) :
    t ∈ enumeration dim n_1d ↔ Valid dim n_1d t := by
  obtain ⟨ix, iy, iz⟩ := t
  simp only [enumeration, List.mem_flatMap, List.mem_map, List.mem_range, Valid, Prod.mk.injEq]
  constructor
  · rintro ⟨z, hz, y, hy, x, hx, rfl, rfl, rfl⟩
    split_ifs at hz hy <;> refine ⟨by omega, fun _ => by omega, fun _ => by omega⟩
  · rintro ⟨h, h1, h2⟩
    refine ⟨iz, ?_, iy, ?_, ix, ?_, rfl, rfl, rfl⟩
    · split_ifs with hd
      · omega
      · have := h2 (by omega); omega
    · split_ifs with hd
      · omega
      · have := h1 (by omega); omega
    · omega

theorem pairwise_enumeration (dim n_1d : Nat) :
    List.Pairwise Precedes (enumeration dim n_1d) := by
  unfold enumeration
  rw [List.pairwise_flatMap]
  refine ⟨fun iz _ => ?_, ?_⟩
  · rw [List.pairwise_flatMap]
    refine ⟨fun iy _ => ?_, ?_⟩
    · rw [List.pairwise_map]
      exact (List.pairwise_lt_range _).imp (fun h => Or.inr ⟨rfl, Or.inr ⟨rfl, h⟩⟩)
    · refine (List.pairwise_lt_range _).imp (fun {a b} h => ?_)
      intro x hx y hy
      simp only [List.mem_map] at hx hy
      obtain ⟨_, _, rfl⟩ := hx
      obtain ⟨_, _, rfl⟩ := hy
      exact Or.inr ⟨rfl, Or.inl h⟩
  · refine (List.pairwise_lt_range _).imp (fun {a b} h => ?_)
    intro x hx y hy
    simp only [List.mem_flatMap, List.mem_map] at hx hy
    obtain ⟨_, _, _, _, rfl⟩ := hx
    obtain ⟨_, _, _, _, rfl⟩ := hy
    exact Or.inl h

theorem precedes_irrefl (t : Nat × Nat × Nat) : ¬ Precedes t t := by
  unfold Precedes; omega

theorem precedes_asymm (s t : Nat × Nat × Nat) (h : Precedes s t) : ¬ Precedes t s := by
  unfold Precedes at *; omega

theorem nodup_enumeration (dim n_1d : Nat) : (enumeration dim n_1d).Nodup :=
  (pairwise_enumeration dim n_1d).imp
    (fun {a b} (h : Precedes a b) (hab : a = b) => precedes_irrefl b (hab ▸ h))

/-! ## The number of multi-indices -/

theorem sum_range_sub (f : Nat → Nat) (n : Nat) :
    ((List.range (n + 1)).map (fun i => f (n + 1 - i))).sum =
      f (n + 1) + ((List.range n).map (fun i => f (n - i))).sum := by
  rw [List.range_succ_eq_map]
  simp [List.map_map, Function.comp_def]

theorem triangle_sum (n : Nat) : ((List.range n).map (fun i => n - i)).sum * 2 = n * (n + 1) := by
  induction n with
  | zero => rfl
  | succ n ih =>
    rw [sum_range_sub (fun m => m) n, Nat.add_mul, ih]
    ring

theorem tetrahedron_sum (n : Nat) :
    ((List.range n).map (fun iz => ((List.range (n - iz)).map (fun iy => n - iz - iy)).sum)).sum * 6
      = n * (n + 1) * (n + 2) := by
  induction n with
  | zero => rfl
  | succ n ih =>
    rw [sum_range_sub (fun m => ((List.range m).map (fun iy => m - iy)).sum) n, Nat.add_mul, ih]
    have := triangle_sum (n + 1)
    linarith

theorem length_enumeration_row (n_1d iz m : Nat) :
    ((List.range m).flatMap (fun iy =>
      (List.range (n_1d - iy - iz)).map (fun ix => (ix, iy, iz)))).length =
      ((List.range m).map (fun iy => n_1d - iz - iy)).sum := by
  simp [List.length_flatMap, Function.comp_def, Nat.sub_right_comm]

theorem length_enumeration (dim n_1d : Nat) (hdim : dim ≤ 3) :
    (enumeration dim n_1d).length = compute_n_pols dim n_1d := by
  have h2 := triangle_sum n_1d
  have h3 := tetrahedron_sum n_1d
  unfold enumeration
  rw [List.length_flatMap]
  simp only [Function.comp_def, length_enumeration_row]
  have r1 : List.range 1 = [0] := rfl
  interval_cases dim
  · simp [compute_n_pols, r1]
  · simp [compute_n_pols, r1]
  · simp [compute_n_pols, List.range', r1] at h2 ⊢
    omega
  · simp [compute_n_pols, List.range'] at h2 h3 ⊢
    generalize ((List.range n_1d).map (fun i => n_1d - i)).sum = T at h2
    generalize ((List.range n_1d).map
      (fun iz => ((List.range (n_1d - iz)).map (fun iy => n_1d - iz - iy)).sum)).sum = U at h3 ⊢
    have e1 : n_1d * (n_1d + 1) / 2 = T := by omega
    rw [e1]
    have e2 : T * (n_1d + 2) = U * 3 := by nlinarith
    rw [e2]
    omega

theorem enumeration_getElem_precedes (dim n_1d i j : Nat) (hij : i < j)
    (hj : j < (enumeration dim n_1d).length) :
    Precedes ((enumeration dim n_1d)[i]) ((enumeration dim n_1d)[j]) :=
  List.pairwise_iff_getElem.mp (pairwise_enumeration dim n_1d) i j (by omega) hj hij

theorem enumeration_getElem_inj (dim n_1d i j : Nat) (hi : i < (enumeration dim n_1d).length)
    (hj : j < (enumeration dim n_1d).length)
    (h : (enumeration dim n_1d)[i] = (enumeration dim n_1d)[j]) : i = j := by
  rcases Nat.lt_trichotomy i j with hlt | heq | hgt
  · exact absurd (h ▸ enumeration_getElem_precedes dim n_1d i j hlt hj) (precedes_irrefl _)
  · exact heq
  · exact absurd (h ▸ enumeration_getElem_precedes dim n_1d j i hgt hi) (precedes_irrefl _)

theorem valid_lt_bound (dim n_1d : Nat) (t : Nat × Nat × Nat) (h : Valid dim n_1d t) :
    t.1 < n_1d ∧ t.2.1 < n_1d ∧ t.2.2 < n_1d := by
  unfold Valid at h; omega

theorem encode_by_count_getElem (dim n_1d k : Nat) (hk : k < (enumeration dim n_1d).length) :
    encode_by_count dim n_1d ((enumeration dim n_1d)[k]) = k := by
  have hset : (Finset.range n_1d ×ˢ Finset.range n_1d ×ˢ Finset.range n_1d).filter
      (fun s => Valid dim n_1d s ∧ Precedes s ((enumeration dim n_1d)[k]))
      = ((enumeration dim n_1d).take k).toFinset := by
    ext s
    simp only [Finset.mem_filter, Finset.mem_product, Finset.mem_range, List.mem_toFinset]
    constructor
    · rintro ⟨_, hv, hp⟩
      obtain ⟨i, hi, rfl⟩ := List.getElem_of_mem ((mem_enumeration dim n_1d s).mpr hv)
      have hik : i < k := by
        rcases Nat.lt_trichotomy i k with hlt | heq | hgt
        · exact hlt
        · subst heq; exact absurd hp (precedes_irrefl _)
        · exact absurd hp
            (precedes_asymm _ _ (enumeration_getElem_precedes dim n_1d k i hgt hi))
      rw [List.mem_take_iff_getElem]
      exact ⟨i, by simp; omega, rfl⟩
    · intro hs
      rw [List.mem_take_iff_getElem] at hs
      obtain ⟨i, hi, rfl⟩ := hs
      have hik : i < k := by simp at hi; omega
      have hv := (mem_enumeration dim n_1d _).mp
        (List.getElem_mem (by omega : i < (enumeration dim n_1d).length))
      have hb := valid_lt_bound dim n_1d _ hv
      exact ⟨⟨hb.1, hb.2.1, hb.2.2⟩, hv, enumeration_getElem_precedes dim n_1d i k hik hk⟩
  unfold encode_by_count
  rw [hset, List.toFinset_card_of_nodup ((nodup_enumeration dim n_1d).sublist (List.take_sublist _ _))]
  simp
  omega

/-! ## Claims C1 to C4 -/

/-- C1: for every `dim` in {1,2,3} and every `n_1d` (also `n_1d = 0`),
`compute_n_pols(n_1d)` over unbounded naturals is the number of triples
`(a,b,c)` of naturals with `a+b+c < n_1d`, where `b = c = 0` is forced when
`dim = 1` and `c = 0` when `dim = 2`. -/
theorem compute_n_pols_eq_card_triples (dim n_1d : Nat) (hdim : 1 ≤ dim) (hdim3 : dim ≤ 3) :
    compute_n_pols dim n_1d =
      Set.ncard {t : Nat × Nat × Nat | t.1 + t.2.1 + t.2.2 < n_1d ∧
        (dim = 1 → t.2.1 = 0 ∧ t.2.2 = 0) ∧ (dim = 2 → t.2.2 = 0)} := by
  have hset : {t : Nat × Nat × Nat | t.1 + t.2.1 + t.2.2 < n_1d ∧
      (dim = 1 → t.2.1 = 0 ∧ t.2.2 = 0) ∧ (dim = 2 → t.2.2 = 0)}
      = ((enumeration dim n_1d).toFinset : Set (Nat × Nat × Nat)) := by
    ext t
    simp only [Set.mem_setOf_eq, List.coe_toFinset, mem_enumeration, Valid]
    constructor
    · rintro ⟨h, h1, h2⟩
      refine ⟨h, fun hd => (h1 (by omega)).1, fun hd => ?_⟩
      rcases Nat.lt_or_ge dim 2 with hlt | hge
      · exact (h1 (by omega)).2
      · exact h2 (by omega)
    · rintro ⟨h, h1, h2⟩
      exact ⟨h, fun hd => ⟨h1 (by omega), h2 (by omega)⟩, fun hd => h2 (by omega)⟩
  rw [hset, Set.ncard_coe_Finset, List.toFinset_card_of_nodup (nodup_enumeration dim n_1d),
    length_enumeration dim n_1d hdim3]

/-- Instance of C1 at `dim = 3`, `n_1d = 4`. -/
theorem compute_n_pols_eq_card_triples_witness :
    (1 ≤ 3 ∧ 3 ≤ 3) ∧ compute_n_pols 3 4 =
      Set.ncard {t : Nat × Nat × Nat | t.1 + t.2.1 + t.2.2 < 4 ∧
        (3 = 1 → t.2.1 = 0 ∧ t.2.2 = 0) ∧ (3 = 2 → t.2.2 = 0)} :=
  ⟨by decide, compute_n_pols_eq_card_triples 3 4 (by decide) (by decide)⟩

/-- Index bijection over unbounded naturals: for `dim ≤ 3` and `n_pols` the
exact value `compute_n_pols(n_1d)`, `compute_index` is injective on the indices
below `n_pols`, maps them into the valid multi-indices, reaches every valid
multi-index, and counting the valid multi-indices that precede `decode(k)` in
the canonical order gives back `k`. -/
theorem compute_index_bijection_nat (dim n_1d : Nat) (hdim3 : dim ≤ 3) :
    (∀ k1 k2 a b c a' b' c', k1 < compute_n_pols dim n_1d → k2 < compute_n_pols dim n_1d →
        compute_index dim n_1d k1 a b c = compute_index dim n_1d k2 a' b' c' → k1 = k2) ∧
    (∀ k a b c, k < compute_n_pols dim n_1d → Valid dim n_1d (compute_index dim n_1d k a b c)) ∧
    (∀ t, Valid dim n_1d t →
        ∃ k, k < compute_n_pols dim n_1d ∧ ∀ a b c, compute_index dim n_1d k a b c = t) ∧
    (∀ k a b c, k < compute_n_pols dim n_1d →
        encode_by_count dim n_1d (compute_index dim n_1d k a b c) = k) := by
  rw [← length_enumeration dim n_1d hdim3]
  refine ⟨?_, ?_, ?_, ?_⟩
  · intro k1 k2 a b c a' b' c' h1 h2 h
    rw [compute_index_lt _ _ _ _ _ _ h1, compute_index_lt _ _ _ _ _ _ h2] at h
    exact enumeration_getElem_inj dim n_1d k1 k2 h1 h2 h
  · intro k a b c hk
    rw [compute_index_lt _ _ _ _ _ _ hk]
    exact (mem_enumeration dim n_1d _).mp (List.getElem_mem hk)
  · intro t ht
    obtain ⟨k, hk, rfl⟩ := List.getElem_of_mem ((mem_enumeration dim n_1d t).mpr ht)
    exact ⟨k, hk, fun a b c => compute_index_lt _ _ _ _ _ _ hk⟩
  · intro k a b c hk
    rw [compute_index_lt _ _ _ _ _ _ hk]
    exact encode_by_count_getElem dim n_1d k hk

/-- C3: for `dim ≤ 3` and `n_1d ≥ 1`, `compute_index` follows the canonical
enumeration order: for `k1 < k2 < n_pols` the multi-index decoded from `k1`
precedes the one decoded from `k2` (lexicographic order on `(iz, iy, ix)`, `iz`
most significant), `decode(0) = (0,0,0)`, and for `dim = 2`, `n_1d = 3` the
indices `k = 0..5` decode to `(ix,iy) = (0,0),(1,0),(2,0),(0,1),(1,1),(0,2)`. -/
theorem compute_index_canonical_order (dim n_1d : Nat) (hdim3 : dim ≤ 3) (hn : 1 ≤ n_1d) :
    (∀ k1 k2 a b c a' b' c', k1 < k2 → k2 < compute_n_pols dim n_1d →
        Precedes (compute_index dim n_1d k1 a b c) (compute_index dim n_1d k2 a' b' c')) ∧
    (∀ a b c, compute_index dim n_1d 0 a b c = (0, 0, 0)) ∧
    (List.range 6).map (fun k => compute_index 2 3 k 0 0 0) =
      [(0, 0, 0), (1, 0, 0), (2, 0, 0), (0, 1, 0), (1, 1, 0), (0, 2, 0)] := by
  refine ⟨?_, ?_, by decide⟩
  · rw [← length_enumeration dim n_1d hdim3]
    intro k1 k2 a b c a' b' c' h12 h2
    rw [compute_index_lt _ _ _ _ _ _ (by omega : k1 < _), compute_index_lt _ _ _ _ _ _ h2]
    exact enumeration_getElem_precedes dim n_1d k1 k2 h12 h2
  · intro a b c
    have hmem : ((0, 0, 0) : Nat × Nat × Nat) ∈ enumeration dim n_1d :=
      (mem_enumeration dim n_1d _).mpr ⟨by simpa using hn, fun _ => rfl, fun _ => rfl⟩
    have hpos : 0 < (enumeration dim n_1d).length := List.length_pos_of_mem hmem
    rw [compute_index_lt _ _ _ _ _ _ hpos]
    obtain ⟨i, hi, hi0⟩ := List.getElem_of_mem hmem
    rcases Nat.eq_zero_or_pos i with h0 | h0
    · subst h0; exact hi0
    · have hp := enumeration_getElem_precedes dim n_1d 0 i h0 hi
      rw [hi0] at hp
      unfold Precedes at hp
      simp at hp

/-- Instance of C3 at `dim = 2`, `n_1d = 3`, `k1 = 2`, `k2 = 3`. -/
theorem compute_index_canonical_order_witness :
    (2 ≤ 3 ∧ 1 ≤ 3) ∧ Precedes (compute_index 2 3 2 0 0 0) (compute_index 2 3 3 0 0 0) :=
  ⟨by decide,
    (compute_index_canonical_order 2 3 (by decide) (by decide)).1 2 3 0 0 0 0 0 0
      (by decide) (by decide)⟩

/-- C4: for `dim ≤ 3` and `k < n_pols`, `compute_index` leaves through
its `return`, having assigned all three outputs (the result does not depend on
what the reference arguments held before), and the result satisfies
`ix + iy + iz < n_1d`, so each of `ix`, `iy`, `iz` is below `n_1d`, with
`iy = iz = 0` when `dim = 1` and `iz = 0` when `dim = 2`. -/
theorem compute_index_assigns_valid (dim n_1d k : Nat) (hdim3 : dim ≤ 3)
    (hk : k < compute_n_pols dim n_1d) :
    ∃ t : Nat × Nat × Nat,
      compute_index_scan dim n_1d k = Except.error t ∧
      (∀ nx ny nz, compute_index dim n_1d k nx ny nz = t) ∧
      t.1 + t.2.1 + t.2.2 < n_1d ∧
      (t.1 < n_1d ∧ t.2.1 < n_1d ∧ t.2.2 < n_1d) ∧
      (dim = 1 → t.2.1 = 0 ∧ t.2.2 = 0) ∧ (dim = 2 → t.2.2 = 0) := by
  rw [← length_enumeration dim n_1d hdim3] at hk
  have hv : Valid dim n_1d ((enumeration dim n_1d)[k]) :=
    (mem_enumeration dim n_1d _).mp (List.getElem_mem hk)
  refine ⟨(enumeration dim n_1d)[k], compute_index_scan_lt dim n_1d k hk,
    fun nx ny nz => compute_index_lt _ _ _ _ _ _ hk, hv.1, valid_lt_bound dim n_1d _ hv,
    fun hd => ⟨hv.2.1 (by omega), hv.2.2 (by omega)⟩, fun hd => hv.2.2 (by omega)⟩

/-- Instance of C4 at `dim = 2`, `n_1d = 3`, `k = 4`. -/
theorem compute_index_assigns_valid_witness :
    (2 ≤ 3 ∧ 4 < compute_n_pols 2 3) ∧
    ∃ t : Nat × Nat × Nat,
      compute_index_scan 2 3 4 = Except.error t ∧
      (∀ nx ny nz, compute_index 2 3 4 nx ny nz = t) ∧
      t.1 + t.2.1 + t.2.2 < 3 ∧
      (t.1 < 3 ∧ t.2.1 < 3 ∧ t.2.2 < 3) ∧
      (2 = 1 → t.2.1 = 0 ∧ t.2.2 = 0) ∧ (2 = 2 → t.2.2 = 0) :=
  ⟨by decide, compute_index_assigns_valid 2 3 4 (by decide) (by decide)⟩

/-! ## Closed forms of the single-index evaluators -/

section ClosedForms

variable {R : Type} [Mul R] [One R] [Zero R]

omit [Mul R] [One R] [Zero R] in
theorem values_getElem? (P : Polynomial R) (x : R) (l : List R) (j : Nat) :
    (P.values x l)[j]? = if j < l.length then some (P.value_entry l.length x j) else none := by
  unfold Polynomial.values
  split_ifs with h
  · simp [h]
  · simp [List.getElem?_eq_none_iff, Nat.le_of_not_lt h]

theorem compute_grad_eq (dim : Nat) (S : PolynomialSpace R) (i : Nat) (p : Nat → R)
    (junk : Nat × Nat × Nat) (d : Nat) (hdim3 : dim ≤ 3) (hd : d < dim) :
    compute_grad dim S i p junk d =
      axis_product dim (fun a => (S.polynomials (index_array dim S.n_1d i junk a)).value_entry 2
        (p a) (if a = d then 1 else 0)) := by
  interval_cases dim <;> interval_cases d <;>
    simp +decide [compute_grad, axis_product, List.range_succ, values_getElem?, Function.update]

theorem compute_grad_grad_eq (dim : Nat) (S : PolynomialSpace R) (i : Nat) (p : Nat → R)
    (junk : Nat × Nat × Nat) (d1 d2 : Nat) (hdim3 : dim ≤ 3) (h1 : d1 < dim) (h2 : d2 < dim) :
    compute_grad_grad dim S i p junk d1 d2 =
      axis_product dim (fun a => (S.polynomials (index_array dim S.n_1d i junk a)).value_entry 3
        (p a) (axis_order a d1 d2)) := by
  interval_cases dim <;> interval_cases d1 <;> interval_cases d2 <;>
    simp +decide [compute_grad_grad, axis_product, axis_order, set2, List.range_succ, values_getElem?,
      Function.update]

end ClosedForms

/-! ## The sweeps of `compute` -/

theorem modify_modify {α : Type} (f g : α → α) (n : Nat) (l : List α) :
    List.modify g n (List.modify f n l) = List.modify (g ∘ f) n l := by
  apply List.ext_getElem?
  intro m
  simp only [List.getElem?_modify]
  cases l[m]? <;> by_cases h : n = m <;> simp [h]

theorem modify_id_fun {α : Type} (n : Nat) (l : List α) : List.modify (fun T => T) n l = l := by
  apply List.ext_getElem?
  intro m
  simp only [List.getElem?_modify]
  cases l[m]? <;> simp

/-- A loop of `m` stores into the element at the current position. -/
theorem store_fold {α : Type} (u : Nat → α → α) (W : Nat → Nat → List (List Nat)) (m : Nat)
    (s : Sweep α) :
    (List.range m).foldl
        (fun s d => (⟨s.k, s.out.modify (u d) s.k, s.log ++ W s.k d⟩ : Sweep α)) s =
      ⟨s.k, s.out.modify (fun T => (List.range m).foldl (fun T d => u d T) T) s.k,
        s.log ++ (List.range m).flatMap (W s.k)⟩ := by
  induction m with
  | zero => simp [modify_id_fun]
  | succ m ih =>
    rw [List.range_succ, List.foldl_append, ih]
    simp [modify_modify, Function.comp_def, List.foldl_append, List.flatMap_append]

/-- The sweep over a list of multi-indices: counter, write log, and content. -/
theorem sweep_fold {α τ : Type} (F : τ → α → α) (W : Nat → List (List Nat)) (l : List τ)
    (s : Sweep α) :
    (l.foldl (fun s t => (⟨s.k + 1, s.out.modify (F t) s.k, s.log ++ W s.k⟩ : Sweep α)) s).k
        = s.k + l.length ∧
    (l.foldl (fun s t => (⟨s.k + 1, s.out.modify (F t) s.k, s.log ++ W s.k⟩ : Sweep α)) s).log
        = s.log ++ (List.range l.length).flatMap (fun j => W (s.k + j)) ∧
    (l.foldl (fun s t => (⟨s.k + 1, s.out.modify (F t) s.k, s.log ++ W s.k⟩ : Sweep α)) s).out.length
        = s.out.length ∧
    (∀ i, i < s.k →
      (l.foldl (fun s t => (⟨s.k + 1, s.out.modify (F t) s.k, s.log ++ W s.k⟩ : Sweep α)) s).out[i]?
        = s.out[i]?) ∧
    (∀ j (hj : j < l.length),
      (l.foldl (fun s t => (⟨s.k + 1, s.out.modify (F t) s.k, s.log ++ W s.k⟩ : Sweep α)) s).out[s.k + j]?
        = (s.out[s.k + j]?).map (F l[j])) := by
  induction l generalizing s with
  | nil => simp
  | cons t l ih =>
    obtain ⟨ih1, ih2, ih3, ih4, ih5⟩ := ih ⟨s.k + 1, s.out.modify (F t) s.k, s.log ++ W s.k⟩
    simp only [List.foldl_cons, List.length_cons]
    refine ⟨?_, ?_, ?_, ?_, ?_⟩
    · rw [ih1]; simp; omega
    · rw [ih2, List.range_succ_eq_map]
      simp [List.flatMap_map, Function.comp_def, Nat.add_assoc, Nat.add_comm 1]
    · rw [ih3]; simp
    · intro i hi
      have hne : s.k ≠ i := by omega
      rw [ih4 i (by simp; omega)]
      simp only [List.getElem?_modify]
      cases s.out[i]? <;> simp [hne]
    · intro j hj
      cases j with
      | zero =>
        rw [ih4 (s.k + 0) (by simp)]
        simp only [List.getElem?_modify, Nat.add_zero, List.getElem_cons_zero]
        cases s.out[s.k]? <;> simp
      | succ j =>
        have hne : s.k ≠ s.k + 1 + j := by omega
        have := ih5 j (by simpa using hj)
        simp only at this
        rw [show s.k + (j + 1) = s.k + 1 + j by omega, this]
        simp only [List.getElem?_modify, List.getElem_cons_succ]
        cases s.out[s.k + 1 + j]? <;> simp [hne]

section SweepForms

variable {R : Type} [Mul R] [One R] [Zero R]

theorem values_sweep_eq (dim n_1d : Nat) (v : List (List (List R))) (values : List R) :
    values_sweep dim n_1d v values =
      (enumeration dim n_1d).foldl
        (fun s t => (⟨s.k + 1, s.out.modify (fun _ => bulk_value dim v t) s.k,
          s.log ++ [[s.k]]⟩ : Sweep R)) ⟨0, values, []⟩ := by
  simp only [values_sweep, enumeration, foldl_flatMap_eq, List.foldl_map, List.set_eq_modify,
    bulk_value]

theorem grads_sweep_eq (dim n_1d : Nat) (v : List (List (List R))) (grads : List (Nat → R)) :
    grads_sweep dim n_1d v grads =
      (enumeration dim n_1d).foldl
        (fun s t => (⟨s.k + 1,
          s.out.modify (fun T => (List.range dim).foldl
            (fun T d => Function.update T d (bulk_grad dim v t d)) T) s.k,
          s.log ++ (List.range dim).flatMap (fun d => [[s.k, d]])⟩ : Sweep (Nat → R)))
        ⟨0, grads, []⟩ := by
  have body : ∀ (t : Nat × Nat × Nat) (s : Sweep (Nat → R)),
      (List.range dim).foldl (fun s d => store1 s d (bulk_grad dim v t d)) s =
        ⟨s.k, s.out.modify (fun T => (List.range dim).foldl
            (fun T d => Function.update T d (bulk_grad dim v t d)) T) s.k,
          s.log ++ (List.range dim).flatMap (fun d => [[s.k, d]])⟩ := by
    intro t s
    exact store_fold (fun d T => Function.update T d (bulk_grad dim v t d))
      (fun k d => [[k, d]]) dim s
  have h0 : grads_sweep dim n_1d v grads =
      (enumeration dim n_1d).foldl
        (fun s t =>
          let s' := (List.range dim).foldl (fun s d => store1 s d (bulk_grad dim v t d)) s
          { s' with k := s'.k + 1 }) ⟨0, grads, []⟩ := by
    simp only [grads_sweep, enumeration, foldl_flatMap_eq, List.foldl_map, bulk_grad]
  rw [h0]
  congr 1
  funext s t
  simp only [body]

theorem grad_grads_sweep_eq (dim n_1d : Nat) (v : List (List (List R)))
    (grad_grads : List (Nat → Nat → R)) :
    grad_grads_sweep dim n_1d v grad_grads =
      (enumeration dim n_1d).foldl
        (fun s t => (⟨s.k + 1,
          s.out.modify (fun T => (List.range dim).foldl (fun T d1 =>
            (List.range dim).foldl
              (fun T d2 => set2 T d1 d2 (bulk_grad_grad dim v t d1 d2)) T) T) s.k,
          s.log ++ (List.range dim).flatMap (fun d1 =>
            (List.range dim).flatMap (fun d2 => [[s.k, d1, d2]]))⟩ : Sweep (Nat → Nat → R)))
        ⟨0, grad_grads, []⟩ := by
  have inner : ∀ (t : Nat × Nat × Nat) (d1 : Nat) (s : Sweep (Nat → Nat → R)),
      (List.range dim).foldl (fun s d2 => store2 s d1 d2 (bulk_grad_grad dim v t d1 d2)) s =
        ⟨s.k, s.out.modify (fun T => (List.range dim).foldl
            (fun T d2 => set2 T d1 d2 (bulk_grad_grad dim v t d1 d2)) T) s.k,
          s.log ++ (List.range dim).flatMap (fun d2 => [[s.k, d1, d2]])⟩ := by
    intro t d1 s
    exact store_fold (fun d2 T => set2 T d1 d2 (bulk_grad_grad dim v t d1 d2))
      (fun k d2 => [[k, d1, d2]]) dim s
  have body : ∀ (t : Nat × Nat × Nat) (s : Sweep (Nat → Nat → R)),
      (List.range dim).foldl (fun s d1 =>
        (List.range dim).foldl
          (fun s d2 => store2 s d1 d2 (bulk_grad_grad dim v t d1 d2)) s) s =
        ⟨s.k, s.out.modify (fun T => (List.range dim).foldl (fun T d1 =>
            (List.range dim).foldl
              (fun T d2 => set2 T d1 d2 (bulk_grad_grad dim v t d1 d2)) T) T) s.k,
          s.log ++ (List.range dim).flatMap (fun d1 =>
            (List.range dim).flatMap (fun d2 => [[s.k, d1, d2]]))⟩ := by
    intro t s
    simp only [inner]
    exact store_fold (fun d1 T => (List.range dim).foldl
        (fun T d2 => set2 T d1 d2 (bulk_grad_grad dim v t d1 d2)) T)
      (fun k d1 => (List.range dim).flatMap (fun d2 => [[k, d1, d2]])) dim s
  have h0 : grad_grads_sweep dim n_1d v grad_grads =
      (enumeration dim n_1d).foldl
        (fun s t =>
          let s' := (List.range dim).foldl (fun s d1 =>
            (List.range dim).foldl
              (fun s d2 => store2 s d1 d2 (bulk_grad_grad dim v t d1 d2)) s) s
          { s' with k := s'.k + 1 }) ⟨0, grad_grads, []⟩ := by
    simp only [grad_grads_sweep, enumeration, foldl_flatMap_eq, List.foldl_map, bulk_grad_grad]
  rw [h0]
  congr 1
  funext s t
  simp only [body]

omit [Mul R] [One R] [Zero R] in
theorem update_fold_apply (g : Nat → R) (m : Nat) (T : Nat → R) (d : Nat) :
    (List.range m).foldl (fun T d => Function.update T d (g d)) T d
      = if d < m then g d else T d := by
  induction m with
  | zero => simp
  | succ m ih =>
    rw [List.range_succ, List.foldl_append]
    simp only [List.foldl_cons, List.foldl_nil]
    by_cases h : d = m
    · subst h; simp
    · rw [Function.update_noteq h, ih]
      by_cases h' : d < m
      · simp [h', Nat.lt_succ_of_lt h']
      · have : ¬ d < m + 1 := by omega
        simp [h', this]

omit [Mul R] [One R] [Zero R] in
theorem set2_fold_apply (g : Nat → Nat → R) (m m' : Nat) (T : Nat → Nat → R) (a b : Nat) :
    (List.range m).foldl (fun T d1 =>
      (List.range m').foldl (fun T d2 => set2 T d1 d2 (g d1 d2)) T) T a b
      = if a < m ∧ b < m' then g a b else T a b := by
  have row : ∀ (d1 n : Nat) (T : Nat → Nat → R) (a b : Nat),
      (List.range n).foldl (fun T d2 => set2 T d1 d2 (g d1 d2)) T a b
        = if a = d1 ∧ b < n then g d1 b else T a b := by
    intro d1 n
    induction n with
    | zero => simp
    | succ n ih =>
      intro T a b
      rw [List.range_succ, List.foldl_append]
      simp only [List.foldl_cons, List.foldl_nil]
      unfold set2
      by_cases ha : a = d1
      · subst ha
        by_cases hb : b = n
        · subst hb; simp
        · rw [Function.update_same, Function.update_noteq hb]
          have := ih T a b
          unfold set2 at this
          rw [this]
          have : (b < n + 1) ↔ (b < n) := by omega
          simp [this]
      · rw [Function.update_noteq ha]
        have := ih T a b
        unfold set2 at this
        rw [this]
        simp [ha]
  induction m with
  | zero => simp
  | succ m ih =>
    rw [List.range_succ, List.foldl_append]
    simp only [List.foldl_cons, List.foldl_nil]
    rw [row, ih]
    by_cases ha : a = m
    · subst ha
      by_cases hb : b < m' <;> simp [hb]
    · have : (a < m + 1) ↔ (a < m) := by omega
      simp [ha, this]

end SweepForms

/-! ## What the sweeps store, in terms of the 1-D polynomials -/

section BulkEntries

variable {R : Type}

theorem v_at_table [Mul R] [One R] [Zero R] (dim : Nat) (S : PolynomialSpace R) (p : Nat → R)
    (v_size d i j : Nat) (hd : d < dim) (hi : i < S.n_1d) (hj : j < v_size) :
    v_at (v_table dim S p v_size) d i j = (S.polynomials i).value_entry v_size (p d) j := by
  simp [v_at, v_table, List.getD_eq_getElem?_getD, values_getElem?, hd, hi, hj]

theorem index_array_lt (dim n_1d k : Nat) (junk : Nat × Nat × Nat) (a : Nat)
    (hk : k < (enumeration dim n_1d).length) :
    index_array dim n_1d k junk a = axis_index ((enumeration dim n_1d)[k]) a := by
  simp [index_array, compute_index_lt _ _ _ _ _ _ hk]

theorem bulk_value_eq [MulOneClass R] [Zero R] (dim : Nat) (S : PolynomialSpace R) (p : Nat → R)
    (v_size k : Nat) (hdim : 1 ≤ dim) (hdim3 : dim ≤ 3) (hv : 1 ≤ v_size)
    (hcoh : ∀ i, i < S.n_1d → (S.polynomials i).Coherent)
    (hk : k < (enumeration dim S.n_1d).length) :
    bulk_value dim (v_table dim S p v_size) ((enumeration dim S.n_1d)[k])
      = compute_value dim S k p := by
  have hval := valid_lt_bound dim S.n_1d _
    ((mem_enumeration dim S.n_1d _).mp (List.getElem_mem hk))
  have e : ∀ i x, i < S.n_1d →
      (S.polynomials i).value_entry v_size x 0 = (S.polynomials i).value x := by
    intro i x hi
    rw [(hcoh i hi).1 x]
    exact (hcoh i hi).2 v_size 1 x 0 (by omega) (by omega)
  unfold bulk_value compute_value
  rw [compute_index_lt _ _ _ _ _ _ hk]
  interval_cases dim
  · simp [v_at_table, hval.1, (by omega : 0 < v_size), e]
  · simp [v_at_table, hval.1, hval.2.1, (by omega : 0 < v_size), e]
  · simp [v_at_table, hval.1, hval.2.1, hval.2.2, (by omega : 0 < v_size), e]

theorem bulk_grad_eq [MulOneClass R] [Zero R] (dim : Nat) (S : PolynomialSpace R) (p : Nat → R)
    (v_size k : Nat) (junk : Nat × Nat × Nat) (d : Nat) (hdim3 : dim ≤ 3) (hd : d < dim)
    (hv : 2 ≤ v_size) (hcoh : ∀ i, i < S.n_1d → (S.polynomials i).Coherent)
    (hk : k < (enumeration dim S.n_1d).length) :
    bulk_grad dim (v_table dim S p v_size) ((enumeration dim S.n_1d)[k]) d
      = compute_grad dim S k p junk d := by
  have hval := valid_lt_bound dim S.n_1d _
    ((mem_enumeration dim S.n_1d _).mp (List.getElem_mem hk))
  have e : ∀ i x j, i < S.n_1d → j < 2 →
      (S.polynomials i).value_entry v_size x j = (S.polynomials i).value_entry 2 x j := by
    intro i x j hi hj
    exact (hcoh i hi).2 v_size 2 x j (by omega) hj
  rw [compute_grad_eq dim S k p junk d hdim3 hd]
  simp only [index_array_lt _ _ _ _ _ hk]
  unfold bulk_grad axis_product
  interval_cases dim <;> interval_cases d <;>
    simp +decide [List.range_succ, axis_index, v_at_table, hval.1, hval.2.1, hval.2.2, e,
      (by omega : 0 < v_size), (by omega : 1 < v_size)]

theorem bulk_grad_grad_eq [MulOneClass R] [Zero R] (dim : Nat) (S : PolynomialSpace R)
    (p : Nat → R) (k : Nat) (junk : Nat × Nat × Nat) (d1 d2 : Nat) (hdim3 : dim ≤ 3)
    (h1 : d1 < dim) (h2 : d2 < dim) (hk : k < (enumeration dim S.n_1d).length) :
    bulk_grad_grad dim (v_table dim S p 3) ((enumeration dim S.n_1d)[k]) d1 d2
      = compute_grad_grad dim S k p junk d1 d2 := by
  have hval := valid_lt_bound dim S.n_1d _
    ((mem_enumeration dim S.n_1d _).mp (List.getElem_mem hk))
  rw [compute_grad_grad_eq dim S k p junk d1 d2 hdim3 h1 h2]
  simp only [index_array_lt _ _ _ _ _ hk]
  unfold bulk_grad_grad axis_product
  interval_cases dim <;> interval_cases d1 <;> interval_cases d2 <;>
    simp +decide [List.range_succ, axis_index, axis_order, v_at_table, hval.1, hval.2.1, hval.2.2]

theorem bulk_grad_grad_symm [Mul R] [One R] [Zero R] (dim : Nat) (v : List (List (List R)))
    (t : Nat × Nat × Nat) (d1 d2 : Nat) :
    bulk_grad_grad dim v t d1 d2 = bulk_grad_grad dim v t d2 d1 := by
  unfold bulk_grad_grad
  simp only [Nat.add_comm]

end BulkEntries

/-! ## The bulk call as a whole -/

section Bulk

variable {R : Type} [Mul R] [One R] [Zero R]

theorem compute_ok_outputs (dim : Nat) (S : PolynomialSpace R) (p : Nat → R) (o : Outputs R)
    (hok : (compute dim S p o).1 = Except.ok ()) :
    ∃ v_size, (o.values.length = n_pols dim S → 1 ≤ v_size) ∧
      (o.grads.length = n_pols dim S → 2 ≤ v_size) ∧
      (o.grad_grads.length = n_pols dim S → v_size = 3) ∧
      (compute dim S p o).2 =
        ⟨if o.values.length = n_pols dim S then
            (values_sweep dim S.n_1d (v_table dim S p v_size) o.values).out else o.values,
          if o.grads.length = n_pols dim S then
            (grads_sweep dim S.n_1d (v_table dim S p v_size) o.grads).out else o.grads,
          if o.grad_grads.length = n_pols dim S then
            (grad_grads_sweep dim S.n_1d (v_table dim S p v_size) o.grad_grads).out
          else o.grad_grads⟩ := by
  cases h : compute_assertions dim S o with
  | error exc => simp [compute, h] at hok
  | ok u =>
    refine ⟨if o.grad_grads.length = n_pols dim S then 3
      else if o.grads.length = n_pols dim S then 2
      else if o.values.length = n_pols dim S then 1 else 0, ?_, ?_, ?_, ?_⟩
    · intro hv; split_ifs <;> omega
    · intro hv; split_ifs <;> omega
    · intro hv; simp [hv]
    · simp only [compute, h, decide_eq_true_eq]

theorem values_sweep_get (dim : Nat) (S : PolynomialSpace R) (v : List (List (List R)))
    (values : List R) (k : Nat) (hlen : values.length = (enumeration dim S.n_1d).length)
    (hk : k < (enumeration dim S.n_1d).length) :
    (values_sweep dim S.n_1d v values).out[k]?
      = some (bulk_value dim v ((enumeration dim S.n_1d)[k])) := by
  rw [values_sweep_eq]
  have h := (sweep_fold (fun (t : Nat × Nat × Nat) (_ : R) => bulk_value dim v t)
    (fun k => [[k]]) (enumeration dim S.n_1d) ⟨0, values, []⟩).2.2.2.2 k hk
  simp only [Nat.zero_add] at h
  rw [h, List.getElem?_eq_getElem (by omega)]
  rfl

theorem grads_sweep_get (dim : Nat) (S : PolynomialSpace R) (v : List (List (List R)))
    (grads : List (Nat → R)) (k : Nat) (hlen : grads.length = (enumeration dim S.n_1d).length)
    (hk : k < (enumeration dim S.n_1d).length) :
    ∃ g, (grads_sweep dim S.n_1d v grads).out[k]? = some g ∧
      ∀ d, d < dim → g d = bulk_grad dim v ((enumeration dim S.n_1d)[k]) d := by
  rw [grads_sweep_eq]
  have h := (sweep_fold (fun (t : Nat × Nat × Nat) (T : Nat → R) =>
      (List.range dim).foldl (fun T d => Function.update T d (bulk_grad dim v t d)) T)
    (fun k => (List.range dim).flatMap (fun d => [[k, d]]))
    (enumeration dim S.n_1d) ⟨0, grads, []⟩).2.2.2.2 k hk
  simp only [Nat.zero_add] at h
  rw [h, List.getElem?_eq_getElem (by omega)]
  refine ⟨_, rfl, fun d hd => ?_⟩
  beta_reduce
  rw [update_fold_apply, if_pos hd]

theorem grad_grads_sweep_get (dim : Nat) (S : PolynomialSpace R) (v : List (List (List R)))
    (grad_grads : List (Nat → Nat → R)) (k : Nat)
    (hlen : grad_grads.length = (enumeration dim S.n_1d).length)
    (hk : k < (enumeration dim S.n_1d).length) :
    ∃ H, (grad_grads_sweep dim S.n_1d v grad_grads).out[k]? = some H ∧
      ∀ d1 d2, d1 < dim → d2 < dim →
        H d1 d2 = bulk_grad_grad dim v ((enumeration dim S.n_1d)[k]) d1 d2 := by
  rw [grad_grads_sweep_eq]
  have h := (sweep_fold (fun (t : Nat × Nat × Nat) (T : Nat → Nat → R) =>
      (List.range dim).foldl (fun T d1 => (List.range dim).foldl
        (fun T d2 => set2 T d1 d2 (bulk_grad_grad dim v t d1 d2)) T) T)
    (fun k => (List.range dim).flatMap (fun d1 =>
      (List.range dim).flatMap (fun d2 => [[k, d1, d2]])))
    (enumeration dim S.n_1d) ⟨0, grad_grads, []⟩).2.2.2.2 k hk
  simp only [Nat.zero_add] at h
  rw [h, List.getElem?_eq_getElem (by omega)]
  refine ⟨_, rfl, fun d1 d2 h1 h2 => ?_⟩
  beta_reduce
  rw [set2_fold_apply, if_pos ⟨h1, h2⟩]

end Bulk

theorem axis_product_eq_prod {R : Type} [CommMonoidWithZero R] (dim : Nat) (f : Nat → R) :
    axis_product dim f = Finset.prod (Finset.range dim) f := by
  unfold axis_product
  induction dim with
  | zero => simp
  | succ n ih => rw [List.range_succ, List.foldl_append, ih, Finset.prod_range_succ]; rfl

theorem monomial_coherent (i : Nat) : (monomial i).Coherent := by
  constructor
  · intro x; simp [monomial]
  · intro size size' x j _ _; rfl

theorem flatMap_singleton_eq_map {α β : Type} (f : α → β) (l : List α) :
    l.flatMap (fun x => [f x]) = l.map f := by
  induction l with
  | nil => rfl
  | cons a l ih => simp [List.flatMap_cons, ih]

/-! ## Claims C5 to C10 -/

/-- C5: bulk and single-index evaluation agree.  For `dim` in {1,2,3}, 1-D
polynomials that return the same derivative of order `j` however many
derivatives are requested, a successful call of `compute` and `k < n_pols`,
every requested output (one of length `n_pols`) holds at position `k` the
single-index result: `values[k] = compute_value(k,p)`, and, component by
component, `grads[k] = compute_grad(k,p)` and
`grad_grads[k] = compute_grad_grad(k,p)`.  Of the arithmetic only `1 * x = x`
and `x * 1 = x` are used. -/
theorem compute_eq_single_index {R : Type} [MulOneClass R] [Zero R] (dim : Nat)
    (S : PolynomialSpace R) (p : Nat → R) (o : Outputs R) (k : Nat) (junk : Nat × Nat × Nat)
    (hdim : 1 ≤ dim) (hdim3 : dim ≤ 3)
    (hcoh : ∀ i, i < S.n_1d → (S.polynomials i).Coherent)
    (hok : (compute dim S p o).1 = Except.ok ()) (hk : k < n_pols dim S) :
    (o.values.length = n_pols dim S →
      (compute dim S p o).2.values[k]? = some (compute_value dim S k p)) ∧
    (o.grads.length = n_pols dim S →
      ∃ g, (compute dim S p o).2.grads[k]? = some g ∧
        ∀ d, d < dim → g d = compute_grad dim S k p junk d) ∧
    (o.grad_grads.length = n_pols dim S →
      ∃ H, (compute dim S p o).2.grad_grads[k]? = some H ∧
        ∀ d1 d2, d1 < dim → d2 < dim → H d1 d2 = compute_grad_grad dim S k p junk d1 d2) := by
  obtain ⟨v_size, hv1, hv2, hv3, hout⟩ := compute_ok_outputs dim S p o hok
  have hlen : (enumeration dim S.n_1d).length = n_pols dim S := length_enumeration dim S.n_1d hdim3
  have hk' : k < (enumeration dim S.n_1d).length := by omega
  rw [hout]
  refine ⟨fun hreq => ?_, fun hreq => ?_, fun hreq => ?_⟩
  · simp only [if_pos hreq]
    rw [values_sweep_get dim S _ _ k (by omega) hk',
      bulk_value_eq dim S p v_size k hdim hdim3 (hv1 hreq) hcoh hk']
  · simp only [if_pos hreq]
    obtain ⟨g, hg, hgd⟩ := grads_sweep_get dim S (v_table dim S p v_size) o.grads k (by omega) hk'
    refine ⟨g, hg, fun d hd => ?_⟩
    rw [hgd d hd, bulk_grad_eq dim S p v_size k junk d hdim3 hd (hv2 hreq) hcoh hk']
  · simp only [if_pos hreq]
    obtain ⟨H, hH, hHd⟩ :=
      grad_grads_sweep_get dim S (v_table dim S p v_size) o.grad_grads k (by omega) hk'
    refine ⟨H, hH, fun d1 d2 h1 h2 => ?_⟩
    rw [hHd d1 d2 h1 h2, hv3 hreq, bulk_grad_grad_eq dim S p k junk d1 d2 hdim3 h1 h2 hk']

/-- Instance of C5: `dim = 2`, the monomials `1, t, t^2`, the point `(1,1)`, all
three outputs requested, `k = 4`. -/
theorem compute_eq_single_index_witness :
    (1 ≤ 2 ∧ 2 ≤ 3 ∧ 4 < n_pols 2 monomials3) ∧
    ((compute 2 monomials3 (fun _ => 1)
        ⟨List.replicate 6 0, List.replicate 6 (fun _ => 0),
          List.replicate 6 (fun _ _ => 0)⟩).2.values[4]?
      = some (compute_value 2 monomials3 4 (fun _ => 1))) ∧
    (∃ g, (compute 2 monomials3 (fun _ => 1)
        ⟨List.replicate 6 0, List.replicate 6 (fun _ => 0),
          List.replicate 6 (fun _ _ => 0)⟩).2.grads[4]? = some g ∧
      ∀ d, d < 2 → g d = compute_grad 2 monomials3 4 (fun _ => 1) (0, 0, 0) d) ∧
    (∃ H, (compute 2 monomials3 (fun _ => 1)
        ⟨List.replicate 6 0, List.replicate 6 (fun _ => 0),
          List.replicate 6 (fun _ _ => 0)⟩).2.grad_grads[4]? = some H ∧
      ∀ d1 d2, d1 < 2 → d2 < 2 →
        H d1 d2 = compute_grad_grad 2 monomials3 4 (fun _ => 1) (0, 0, 0) d1 d2) :=
  have h := compute_eq_single_index 2 monomials3 (fun _ => 1)
    ⟨List.replicate 6 0, List.replicate 6 (fun _ => 0), List.replicate 6 (fun _ _ => 0)⟩
    4 (0, 0, 0) (by decide) (by decide) (fun i _ => monomial_coherent i) rfl (by decide)
  ⟨by decide, h.1 rfl, h.2.1 rfl, h.2.2 rfl⟩

/-- C6: for `dim ≤ 3`, `k < n_pols` and `d1, d2 < dim`, the entry `[d1][d2]` of
`compute_grad_grad(k,p)` is the product over the active axes `a < dim` of the
derivative of order `axis_order(a,d1,d2)` of the 1-D polynomial with index
`decode(k)[a]` at `p[a]`: one factor per active axis.  For `dim = 2`, the
monomials `1, t, t^2`, `k = 4` and `p = (1,1)` the Hessian is `[[0,1],[1,0]]`. -/
theorem compute_grad_grad_entry {R : Type} [CommMonoidWithZero R] (dim : Nat)
    (S : PolynomialSpace R) (k : Nat) (p : Nat → R) (junk : Nat × Nat × Nat) (nx ny nz : Nat)
    (d1 d2 : Nat) (hdim3 : dim ≤ 3) (hk : k < n_pols dim S) (h1 : d1 < dim) (h2 : d2 < dim) :
    compute_grad_grad dim S k p junk d1 d2 =
      Finset.prod (Finset.range dim) (fun a =>
        (S.polynomials (axis_index (compute_index dim S.n_1d k nx ny nz) a)).value_entry 3
          (p a) (axis_order a d1 d2)) ∧
    (compute_grad_grad 2 monomials3 4 (fun _ => 1) (0, 0, 0) 0 0 = 0 ∧
      compute_grad_grad 2 monomials3 4 (fun _ => 1) (0, 0, 0) 0 1 = 1 ∧
      compute_grad_grad 2 monomials3 4 (fun _ => 1) (0, 0, 0) 1 0 = 1 ∧
      compute_grad_grad 2 monomials3 4 (fun _ => 1) (0, 0, 0) 1 1 = 0) := by
  have hk' : k < (enumeration dim S.n_1d).length := by
    rw [length_enumeration dim S.n_1d hdim3]; exact hk
  refine ⟨?_, by decide⟩
  rw [compute_grad_grad_eq dim S k p junk d1 d2 hdim3 h1 h2, axis_product_eq_prod]
  simp only [index_array_lt _ _ _ _ _ hk', compute_index_lt _ _ _ _ _ _ hk']

/-- Instance of C6: `dim = 2`, the monomials `1, t, t^2`, `k = 4`, the point
`(1,1)`, entry `[0][1]`. -/
theorem compute_grad_grad_entry_witness :
    (2 ≤ 3 ∧ 4 < n_pols 2 monomials3 ∧ 0 < 2 ∧ 1 < 2) ∧
    compute_grad_grad 2 monomials3 4 (fun _ => 1) (0, 0, 0) 0 1 =
      Finset.prod (Finset.range 2) (fun a =>
        (monomials3.polynomials (axis_index (compute_index 2 monomials3.n_1d 4 0 0 0) a)).value_entry
          3 ((fun _ => 1) a) (axis_order a 0 1)) :=
  ⟨by decide,
    (compute_grad_grad_entry 2 monomials3 4 (fun _ => 1) (0, 0, 0) 0 0 0 0 1
      (by decide) (by decide) (by decide) (by decide)).1⟩

/-- C7: for `dim ≤ 3`, `k < n_pols` and an output axis `d < dim`, component `d`
of `compute_grad(k,p)` is the product over the active axes `a < dim` of the
first derivative of the 1-D polynomial with index `decode(k)[a]` at `p[a]` if
`a = d`, and of its value (derivative of order 0) at `p[a]` otherwise. -/
theorem compute_grad_component {R : Type} [CommMonoidWithZero R] (dim : Nat)
    (S : PolynomialSpace R) (k : Nat) (p : Nat → R) (junk : Nat × Nat × Nat) (nx ny nz : Nat)
    (d : Nat) (hdim3 : dim ≤ 3) (hk : k < n_pols dim S) (hd : d < dim) :
    compute_grad dim S k p junk d =
      Finset.prod (Finset.range dim) (fun a =>
        (S.polynomials (axis_index (compute_index dim S.n_1d k nx ny nz) a)).value_entry 2
          (p a) (if a = d then 1 else 0)) := by
  have hk' : k < (enumeration dim S.n_1d).length := by
    rw [length_enumeration dim S.n_1d hdim3]; exact hk
  rw [compute_grad_eq dim S k p junk d hdim3 hd, axis_product_eq_prod]
  simp only [index_array_lt _ _ _ _ _ hk', compute_index_lt _ _ _ _ _ _ hk']

/-- Instance of C7: `dim = 2`, the monomials `1, t, t^2`, `k = 4`, the point
`(1,1)`, component 1. -/
theorem compute_grad_component_witness :
    (2 ≤ 3 ∧ 4 < n_pols 2 monomials3 ∧ 1 < 2) ∧
    compute_grad 2 monomials3 4 (fun _ => 1) (0, 0, 0) 1 =
      Finset.prod (Finset.range 2) (fun a =>
        (monomials3.polynomials (axis_index (compute_index 2 monomials3.n_1d 4 0 0 0) a)).value_entry
          2 ((fun _ => 1) a) (if a = 1 then 1 else 0)) :=
  ⟨by decide,
    compute_grad_component 2 monomials3 4 (fun _ => 1) (0, 0, 0) 0 0 0 1
      (by decide) (by decide) (by decide)⟩

/-- C8: every Hessian is symmetric, exactly: for `dim ≤ 3`, `k < n_pols` and
`d1, d2 < dim`, `H[d1][d2] = H[d2][d1]` both for `H = compute_grad_grad(k,p)`
and for `H = grad_grads[k]` after a successful `compute` that was asked for the
Hessians.  No law of the arithmetic is used: the two entries are the same
product of the same factors in the same order. -/
theorem hessian_symmetric {R : Type} [Mul R] [One R] [Zero R] (dim : Nat)
    (S : PolynomialSpace R) (k : Nat) (p : Nat → R) (junk : Nat × Nat × Nat) (o : Outputs R)
    (d1 d2 : Nat) (hdim3 : dim ≤ 3) (hk : k < n_pols dim S) (h1 : d1 < dim) (h2 : d2 < dim) :
    compute_grad_grad dim S k p junk d1 d2 = compute_grad_grad dim S k p junk d2 d1 ∧
    ((compute dim S p o).1 = Except.ok () → o.grad_grads.length = n_pols dim S →
      ∃ H, (compute dim S p o).2.grad_grads[k]? = some H ∧ H d1 d2 = H d2 d1) := by
  have hlen : (enumeration dim S.n_1d).length = n_pols dim S := length_enumeration dim S.n_1d hdim3
  have hk' : k < (enumeration dim S.n_1d).length := by omega
  constructor
  · rw [compute_grad_grad_eq dim S k p junk d1 d2 hdim3 h1 h2,
      compute_grad_grad_eq dim S k p junk d2 d1 hdim3 h2 h1]
    simp only [axis_order, Nat.add_comm]
  · intro hok hreq
    obtain ⟨v_size, _, _, _, hout⟩ := compute_ok_outputs dim S p o hok
    rw [hout]
    simp only [if_pos hreq]
    obtain ⟨H, hH, hHd⟩ :=
      grad_grads_sweep_get dim S (v_table dim S p v_size) o.grad_grads k (by omega) hk'
    refine ⟨H, hH, ?_⟩
    rw [hHd d1 d2 h1 h2, hHd d2 d1 h2 h1, bulk_grad_grad_symm]

/-- Instance of C8: `dim = 3`, the monomials `1, t, t^2`, `k = 7`, the point
`(2,3,4)`, entries `[0][2]` and `[2][0]`, Hessians requested alone. -/
theorem hessian_symmetric_witness :
    (3 ≤ 3 ∧ 7 < n_pols 3 monomials3 ∧ 0 < 3 ∧ 2 < 3) ∧
    compute_grad_grad 3 monomials3 7 (fun d => 2 + d) (0, 0, 0) 0 2
      = compute_grad_grad 3 monomials3 7 (fun d => 2 + d) (0, 0, 0) 2 0 ∧
    ∃ H, (compute 3 monomials3 (fun d => 2 + d)
        ⟨[], [], List.replicate 10 (fun _ _ => 0)⟩).2.grad_grads[7]? = some H ∧
      H 0 2 = H 2 0 :=
  have h := hessian_symmetric 3 monomials3 7 (fun d => 2 + d) (0, 0, 0)
    ⟨[], [], List.replicate 10 (fun _ _ => 0)⟩ 0 2
    (by decide) (by decide) (by decide) (by decide)
  ⟨by decide, h.1, h.2 rfl rfl⟩

/-- Sweeps over unbounded naturals: for `dim ≤ 3` each sweep of `compute` ends
with its running counter `k` equal to the exact value `compute_n_pols(n_1d)`,
the number of multi-indices, and the stores it made are, in program order,
exactly one store to each position below that number (for the gradients one
store to each component `[k][d]`, `d < dim`, for the Hessians one to each entry
`[k][d1][d2]`, `d1, d2 < dim`). -/
theorem sweeps_write_each_position_once_nat {R : Type} [Mul R] [One R] [Zero R] (dim : Nat)
    (S : PolynomialSpace R) (v : List (List (List R))) (values : List R)
    (grads : List (Nat → R)) (grad_grads : List (Nat → Nat → R)) (hdim3 : dim ≤ 3) :
    ((values_sweep dim S.n_1d v values).k = n_pols dim S ∧
      (values_sweep dim S.n_1d v values).log = (List.range (n_pols dim S)).map (fun k => [k])) ∧
    ((grads_sweep dim S.n_1d v grads).k = n_pols dim S ∧
      (grads_sweep dim S.n_1d v grads).log =
        (List.range (n_pols dim S)).flatMap (fun k => (List.range dim).map (fun d => [k, d]))) ∧
    ((grad_grads_sweep dim S.n_1d v grad_grads).k = n_pols dim S ∧
      (grad_grads_sweep dim S.n_1d v grad_grads).log =
        (List.range (n_pols dim S)).flatMap (fun k =>
          (List.range dim).flatMap (fun d1 => (List.range dim).map (fun d2 => [k, d1, d2])))) := by
  have hlen : (enumeration dim S.n_1d).length = n_pols dim S := length_enumeration dim S.n_1d hdim3
  refine ⟨?_, ?_, ?_⟩
  · rw [values_sweep_eq]
    obtain ⟨hk, hlog, _⟩ := sweep_fold (fun (t : Nat × Nat × Nat) (_ : R) => bulk_value dim v t)
      (fun k => [[k]]) (enumeration dim S.n_1d) ⟨0, values, []⟩
    rw [hk, hlog, hlen]
    simp [flatMap_singleton_eq_map]
  · rw [grads_sweep_eq]
    obtain ⟨hk, hlog, _⟩ := sweep_fold (fun (t : Nat × Nat × Nat) (T : Nat → R) =>
        (List.range dim).foldl (fun T d => Function.update T d (bulk_grad dim v t d)) T)
      (fun k => (List.range dim).flatMap (fun d => [[k, d]]))
      (enumeration dim S.n_1d) ⟨0, grads, []⟩
    rw [hk, hlog, hlen]
    simp [flatMap_singleton_eq_map]
  · rw [grad_grads_sweep_eq]
    obtain ⟨hk, hlog, _⟩ := sweep_fold (fun (t : Nat × Nat × Nat) (T : Nat → Nat → R) =>
        (List.range dim).foldl (fun T d1 => (List.range dim).foldl
          (fun T d2 => set2 T d1 d2 (bulk_grad_grad dim v t d1 d2)) T) T)
      (fun k => (List.range dim).flatMap (fun d1 =>
        (List.range dim).flatMap (fun d2 => [[k, d1, d2]])))
      (enumeration dim S.n_1d) ⟨0, grad_grads, []⟩
    rw [hk, hlog, hlen]
    simp [flatMap_singleton_eq_map]

theorem compute_n_pols_succ (d n : Nat) (hd : 1 ≤ d) :
    compute_n_pols (d + 1) n = compute_n_pols d n * (n + d) / (d + 1) := by
  obtain ⟨e, rfl⟩ : ∃ e, d = e + 1 := ⟨d - 1, by omega⟩
  unfold compute_n_pols
  simp only [Nat.add_sub_cancel]
  rw [List.range'_1_concat, List.foldl_append]
  simp [Nat.add_comm 1 e]

theorem compute_n_pols_eq_choose (d n : Nat) (hd : 1 ≤ d) :
    compute_n_pols d n = Nat.choose (n + d - 1) d := by
  induction d with
  | zero => omega
  | succ d ih =>
    rcases Nat.eq_zero_or_pos d with h0 | hpos
    · subst h0; simp [compute_n_pols]
    · rw [compute_n_pols_succ d n hpos, ih hpos]
      have h := Nat.succ_mul_choose_eq (n + d - 1) d
      have e : (n + d - 1).succ = n + d := by omega
      rw [e] at h
      rw [Nat.mul_comm, h]
      simp

theorem compute_n_pols_mul_dvd (i n : Nat) (hi : 1 ≤ i) :
    (i + 1) ∣ compute_n_pols i n * (n + i) := by
  rw [compute_n_pols_eq_choose i n hi]
  have h := Nat.succ_mul_choose_eq (n + i - 1) i
  have e : (n + i - 1).succ = n + i := by omega
  rw [e] at h
  rw [Nat.mul_comm, h]
  exact Dvd.intro_left _ rfl

theorem take_range'_one (a b : Nat) (h : a ≤ b) :
    (List.range' 1 b).take a = List.range' 1 a := by
  obtain ⟨c, rfl⟩ : ∃ c, b = c + a := ⟨b - a, by omega⟩
  rw [← List.range'_append_1, List.take_left']
  simp

/-! ## Indices at or beyond `n_pols` -/

theorem compute_index_ge (dim n_1d n nx ny nz : Nat) (h : (enumeration dim n_1d).length ≤ n) :
    compute_index dim n_1d n nx ny nz = (nx, ny, nz) := by
  simp [compute_index, compute_index_scan_ge dim n_1d n h]

theorem index_array_ge (dim n_1d k : Nat) (junk : Nat × Nat × Nat) (a : Nat)
    (hk : (enumeration dim n_1d).length ≤ k) :
    index_array dim n_1d k junk a = axis_index junk a := by
  simp [index_array, compute_index_ge _ _ _ _ _ _ hk]

theorem enumeration_zero (dim n_1d : Nat) (hn : 1 ≤ n_1d) :
    ∃ h : 0 < (enumeration dim n_1d).length, (enumeration dim n_1d)[0] = (0, 0, 0) := by
  have hmem : ((0, 0, 0) : Nat × Nat × Nat) ∈ enumeration dim n_1d :=
    (mem_enumeration dim n_1d _).mpr ⟨by simpa using hn, fun _ => rfl, fun _ => rfl⟩
  have hpos : 0 < (enumeration dim n_1d).length := List.length_pos_of_mem hmem
  refine ⟨hpos, ?_⟩
  obtain ⟨i, hi, hi0⟩ := List.getElem_of_mem hmem
  rcases Nat.eq_zero_or_pos i with h0 | h0
  · subst h0; exact hi0
  · have hp := enumeration_getElem_precedes dim n_1d 0 i h0 hi
    rw [hi0] at hp
    unfold Precedes at hp
    simp at hp

/-- Indices at or beyond the exact number of multi-indices: for `dim ≤ 3`,
`n_1d ≥ 1` and every index `i` at or beyond the exact value
`compute_n_pols(n_1d)`, the loops of `compute_index` run to their end and the
call returns without having modified `nx`, `ny`, `nz`; consequently
`compute_value(i,p)` is `compute_value(0,p)`, the product of polynomial 0
evaluated on each active axis. -/
theorem compute_index_out_of_range_unchanged_nat {R : Type} [Mul R] [One R] [Zero R] (dim : Nat)
    (S : PolynomialSpace R) (i : Nat) (p : Nat → R) (nx ny nz : Nat)
    (hdim3 : dim ≤ 3) (hn : 1 ≤ S.n_1d) (hi : n_pols dim S ≤ i) :
    compute_index_scan dim S.n_1d i = Except.ok (n_pols dim S) ∧
    compute_index dim S.n_1d i nx ny nz = (nx, ny, nz) ∧
    compute_value dim S i p = compute_value dim S 0 p ∧
    compute_value dim S 0 p =
      (if dim > 2 then
        (S.polynomials 0).value (p 0) * (S.polynomials 0).value (p 1) * (S.polynomials 0).value (p 2)
      else if dim > 1 then (S.polynomials 0).value (p 0) * (S.polynomials 0).value (p 1)
      else (S.polynomials 0).value (p 0)) := by
  have hlen : (enumeration dim S.n_1d).length = n_pols dim S := length_enumeration dim S.n_1d hdim3
  have hi' : (enumeration dim S.n_1d).length ≤ i := by omega
  obtain ⟨hpos, h0⟩ := enumeration_zero dim S.n_1d hn
  have hv0 : compute_index dim S.n_1d 0 0 0 0 = (0, 0, 0) := by
    rw [compute_index_lt _ _ _ _ _ _ hpos, h0]
  have hvi : compute_index dim S.n_1d i 0 0 0 = (0, 0, 0) := compute_index_ge _ _ _ _ _ _ hi'
  refine ⟨?_, compute_index_ge _ _ _ _ _ _ hi', ?_, ?_⟩
  · rw [compute_index_scan_ge dim S.n_1d i hi', hlen]
  · unfold compute_value
    rw [hv0, hvi]
  · unfold compute_value
    rw [hv0]
    interval_cases dim <;> simp

/-! ## `compute_n_pols` in 32-bit arithmetic -/

theorem count_multi_indices_eq (dim n_1d : Nat) (hdim3 : dim ≤ 3) :
    count_multi_indices dim n_1d = compute_n_pols dim n_1d := by
  have hset : (Finset.range n_1d ×ˢ Finset.range n_1d ×ˢ Finset.range n_1d).filter
      (fun t => Valid dim n_1d t) = (enumeration dim n_1d).toFinset := by
    ext t
    simp only [Finset.mem_filter, Finset.mem_product, Finset.mem_range, List.mem_toFinset,
      mem_enumeration]
    constructor
    · exact fun h => h.2
    · intro hv
      have hb := valid_lt_bound dim n_1d t hv
      exact ⟨⟨hb.1, hb.2.1, hb.2.2⟩, hv⟩
  unfold count_multi_indices
  rw [hset, List.toFinset_card_of_nodup (nodup_enumeration dim n_1d),
    length_enumeration dim n_1d hdim3]

theorem u32_step (n i a : Nat) (h1 : n + i < 2 ^ 32) (h2 : a * (n + i) < 2 ^ 32)
    (h3 : i + 1 < 2 ^ 32) :
    ({ n_pols := a * ((n + i) % 2 ^ 32) % 2 ^ 32 / ((i + 1) % 2 ^ 32)
       wrapped := false || decide (2 ^ 32 ≤ n + i)
        || decide (2 ^ 32 ≤ a * ((n + i) % 2 ^ 32)) } : NPols32)
      = ⟨a * (n + i) / (i + 1), false⟩ := by
  rw [Nat.mod_eq_of_lt h1, Nat.mod_eq_of_lt h2, Nat.mod_eq_of_lt h3]
  have e1 : decide (2 ^ 32 ≤ n + i) = false := by simp; omega
  have e2 : decide (2 ^ 32 ≤ a * (n + i)) = false := by simp; omega
  rw [e1, e2]
  rfl

/-! ## Claim C15 -/

/-- C15, the claim fails on the code: for `dim = 2` and `n_1d = 65536` the true
number of multi-indices, 2147516416, is below `2^32`, yet the product
`65536 * 65537` wraps around in 32-bit arithmetic and `compute_n_pols` returns
32768. -/
theorem compute_n_pols_u32_counterexample :
    count_multi_indices 2 65536 = 2147516416 ∧ count_multi_indices 2 65536 < 2 ^ 32 ∧
    compute_n_pols_u32 2 65536 = ⟨32768, true⟩ := by
  rw [count_multi_indices_eq 2 65536 (by decide)]
  decide

/-- C15 as amended: with `unsigned int` as 32-bit wrap-around arithmetic, for
`dim` in {1,2,3} and every `n_1d` for which `dim` times the true number of
multi-indices is below `2^32`, no sum or product of `compute_n_pols` wraps
around and the returned value is that true number. -/
theorem compute_n_pols_u32_exact (dim n_1d : Nat) (hdim : 1 ≤ dim) (hdim3 : dim ≤ 3)
    (hsmall : dim * count_multi_indices dim n_1d < 2 ^ 32) :
    compute_n_pols_u32 dim n_1d = ⟨count_multi_indices dim n_1d, false⟩ := by
  rw [count_multi_indices_eq dim n_1d hdim3] at hsmall ⊢
  have d1 := compute_n_pols_mul_dvd 1 n_1d (by decide)
  have d2 := compute_n_pols_mul_dvd 2 n_1d (by decide)
  have s1 := compute_n_pols_succ 1 n_1d (by decide)
  have s2 := compute_n_pols_succ 2 n_1d (by decide)
  have c1 : compute_n_pols 1 n_1d = n_1d := rfl
  rw [c1] at d1 s1
  simp only [Nat.reduceAdd] at d1 d2 s1 s2
  have m1 : compute_n_pols 2 n_1d * 2 = n_1d * (n_1d + 1) := by
    rw [s1]; exact Nat.div_mul_cancel d1
  have m2 : compute_n_pols 3 n_1d * 3 = compute_n_pols 2 n_1d * (n_1d + 2) := by
    rw [s2]; exact Nat.div_mul_cancel d2
  interval_cases dim
  · rfl
  · have hp : n_1d * (n_1d + 1) < 2 ^ 32 := by omega
    have hs : n_1d + 1 < 2 ^ 32 := by
      rcases Nat.eq_zero_or_pos n_1d with h0 | h0
      · subst h0; decide
      · nlinarith
    have e : compute_n_pols_u32 2 n_1d =
        { n_pols := n_1d * ((n_1d + 1) % 2 ^ 32) % 2 ^ 32 / ((1 + 1) % 2 ^ 32)
          wrapped := false || decide (2 ^ 32 ≤ n_1d + 1)
            || decide (2 ^ 32 ≤ n_1d * ((n_1d + 1) % 2 ^ 32)) } := rfl
    rw [e, u32_step n_1d 1 n_1d hs hp (by decide), s1]
  · have hp2 : compute_n_pols 2 n_1d * (n_1d + 2) < 2 ^ 32 := by omega
    have hp1 : n_1d * (n_1d + 1) < 2 ^ 32 := by nlinarith
    have hs1 : n_1d + 1 < 2 ^ 32 := by
      rcases Nat.eq_zero_or_pos n_1d with h0 | h0
      · subst h0; decide
      · nlinarith
    have hs2 : n_1d + 2 < 2 ^ 32 := by
      rcases Nat.eq_zero_or_pos n_1d with h0 | h0
      · subst h0; decide
      · have : 1 ≤ compute_n_pols 2 n_1d := by nlinarith
        nlinarith
    have e : compute_n_pols_u32 3 n_1d =
        { n_pols :=
            (n_1d * ((n_1d + 1) % 2 ^ 32) % 2 ^ 32 / ((1 + 1) % 2 ^ 32))
              * ((n_1d + 2) % 2 ^ 32) % 2 ^ 32 / ((2 + 1) % 2 ^ 32)
          wrapped :=
            (false || decide (2 ^ 32 ≤ n_1d + 1)
              || decide (2 ^ 32 ≤ n_1d * ((n_1d + 1) % 2 ^ 32)))
            || decide (2 ^ 32 ≤ n_1d + 2)
            || decide (2 ^ 32 ≤ (n_1d * ((n_1d + 1) % 2 ^ 32) % 2 ^ 32 / ((1 + 1) % 2 ^ 32))
                * ((n_1d + 2) % 2 ^ 32)) } := rfl
    have st1 := u32_step n_1d 1 n_1d hs1 hp1 (by decide)
    have q1 := congrArg NPols32.n_pols st1
    have w1 := congrArg NPols32.wrapped st1
    simp only at q1 w1
    rw [e, q1, w1, ← s1, u32_step n_1d 2 (compute_n_pols 2 n_1d) hs2 hp2 (by decide), s2]

/-- Instance of C15 as amended at `dim = 3`, `n_1d = 2047`, the largest `n_1d`
that `dim = 3` admits. -/
theorem compute_n_pols_u32_exact_witness :
    (1 ≤ 3 ∧ 3 ≤ 3 ∧ 3 * count_multi_indices 3 2047 < 2 ^ 32) ∧
    compute_n_pols_u32 3 2047 = ⟨count_multi_indices 3 2047, false⟩ :=
  have h : 3 * count_multi_indices 3 2047 < 2 ^ 32 := by
    rw [count_multi_indices_eq 3 2047 (by decide)]; decide
  ⟨⟨by decide, by decide, h⟩, compute_n_pols_u32_exact 3 2047 (by decide) (by decide) h⟩

/-! ## The table of `compute` and the frame of the call -/

section TableAndFrame

variable {R : Type}

theorem compute_ok_outputs_v_size [Mul R] [One R] [Zero R] (dim : Nat) (S : PolynomialSpace R)
    (p : Nat → R) (o : Outputs R) (hok : (compute dim S p o).1 = Except.ok ()) :
    (compute dim S p o).2 =
      ⟨if o.values.length = n_pols dim S then
          (values_sweep dim S.n_1d (v_table dim S p (compute_v_size dim S o)) o.values).out
        else o.values,
        if o.grads.length = n_pols dim S then
          (grads_sweep dim S.n_1d (v_table dim S p (compute_v_size dim S o)) o.grads).out
        else o.grads,
        if o.grad_grads.length = n_pols dim S then
          (grad_grads_sweep dim S.n_1d (v_table dim S p (compute_v_size dim S o))
            o.grad_grads).out
        else o.grad_grads⟩ := by
  cases h : compute_assertions dim S o with
  | error exc => simp [compute, h] at hok
  | ok u => simp only [compute, h, compute_v_size, decide_eq_true_eq]

theorem v_cell_table [Zero R] (dim : Nat) (S : PolynomialSpace R) (p : Nat → R)
    (v_size d i : Nat) (hd : d < dim) (hi : i < S.n_1d) :
    v_cell (v_table dim S p v_size) d i
      = (S.polynomials i).values (p d) (List.replicate v_size 0) := by
  simp [v_cell, v_table, List.getD_eq_getElem?_getD, hd, hi]

theorem v_cell_table_length [Zero R] (dim : Nat) (S : PolynomialSpace R) (p : Nat → R)
    (v_size d i : Nat) (hd : d < dim) (hi : i < S.n_1d) :
    (v_cell (v_table dim S p v_size) d i).length = v_size := by
  rw [v_cell_table dim S p v_size d i hd hi]
  simp [Polynomial.values]

theorem sweep_out_length [Mul R] [One R] [Zero R] (dim n_1d : Nat) (v : List (List (List R)))
    (values : List R) (grads : List (Nat → R)) (grad_grads : List (Nat → Nat → R)) :
    (values_sweep dim n_1d v values).out.length = values.length ∧
    (grads_sweep dim n_1d v grads).out.length = grads.length ∧
    (grad_grads_sweep dim n_1d v grad_grads).out.length = grad_grads.length := by
  refine ⟨?_, ?_, ?_⟩
  · rw [values_sweep_eq]
    exact (sweep_fold (fun (t : Nat × Nat × Nat) (_ : R) => bulk_value dim v t)
      (fun k => [[k]]) (enumeration dim n_1d) ⟨0, values, []⟩).2.2.1
  · rw [grads_sweep_eq]
    exact (sweep_fold (fun (t : Nat × Nat × Nat) (T : Nat → R) =>
        (List.range dim).foldl (fun T d => Function.update T d (bulk_grad dim v t d)) T)
      (fun k => (List.range dim).flatMap (fun d => [[k, d]]))
      (enumeration dim n_1d) ⟨0, grads, []⟩).2.2.1
  · rw [grad_grads_sweep_eq]
    exact (sweep_fold (fun (t : Nat × Nat × Nat) (T : Nat → Nat → R) =>
        (List.range dim).foldl (fun T d1 => (List.range dim).foldl
          (fun T d2 => set2 T d1 d2 (bulk_grad_grad dim v t d1 d2)) T) T)
      (fun k => (List.range dim).flatMap (fun d1 =>
        (List.range dim).flatMap (fun d2 => [[k, d1, d2]])))
      (enumeration dim n_1d) ⟨0, grad_grads, []⟩).2.2.1

theorem compute_lengths [Mul R] [One R] [Zero R] (dim : Nat) (S : PolynomialSpace R)
    (p : Nat → R) (o : Outputs R) :
    (compute dim S p o).2.values.length = o.values.length ∧
    (compute dim S p o).2.grads.length = o.grads.length ∧
    (compute dim S p o).2.grad_grads.length = o.grad_grads.length := by
  cases h : compute_assertions dim S o with
  | error exc => simp [compute, h]
  | ok u =>
    simp only [compute, h, decide_eq_true_eq]
    refine ⟨?_, ?_, ?_⟩
    · split_ifs <;> simp [(sweep_out_length dim S.n_1d _ o.values o.grads o.grad_grads).1]
    · split_ifs <;> simp [(sweep_out_length dim S.n_1d _ o.values o.grads o.grad_grads).2.1]
    · split_ifs <;> simp [(sweep_out_length dim S.n_1d _ o.values o.grads o.grad_grads).2.2]

theorem compute_values_get [MulOneClass R] [Zero R] (dim : Nat) (S : PolynomialSpace R)
    (p : Nat → R) (o : Outputs R) (k : Nat) (hdim : 1 ≤ dim) (hdim3 : dim ≤ 3)
    (hcoh : ∀ i, i < S.n_1d → (S.polynomials i).Coherent)
    (hok : (compute dim S p o).1 = Except.ok ()) (hk : k < n_pols dim S)
    (hreq : o.values.length = n_pols dim S) :
    (compute dim S p o).2.values[k]? = some (compute_value dim S k p) := by
  obtain ⟨v_size, hv1, _, _, hout⟩ := compute_ok_outputs dim S p o hok
  have hlen : (enumeration dim S.n_1d).length = n_pols dim S := length_enumeration dim S.n_1d hdim3
  have hk' : k < (enumeration dim S.n_1d).length := by omega
  rw [hout]
  simp only [if_pos hreq]
  rw [values_sweep_get dim S _ _ k (by omega) hk',
    bulk_value_eq dim S p v_size k hdim hdim3 (hv1 hreq) hcoh hk']

theorem compute_grads_get [MulOneClass R] [Zero R] (dim : Nat) (S : PolynomialSpace R)
    (p : Nat → R) (o : Outputs R) (k : Nat) (junk : Nat × Nat × Nat) (hdim3 : dim ≤ 3)
    (hcoh : ∀ i, i < S.n_1d → (S.polynomials i).Coherent)
    (hok : (compute dim S p o).1 = Except.ok ()) (hk : k < n_pols dim S)
    (hreq : o.grads.length = n_pols dim S) :
    ∃ g, (compute dim S p o).2.grads[k]? = some g ∧
      ∀ d, d < dim → g d = compute_grad dim S k p junk d := by
  obtain ⟨v_size, _, hv2, _, hout⟩ := compute_ok_outputs dim S p o hok
  have hlen : (enumeration dim S.n_1d).length = n_pols dim S := length_enumeration dim S.n_1d hdim3
  have hk' : k < (enumeration dim S.n_1d).length := by omega
  rw [hout]
  simp only [if_pos hreq]
  obtain ⟨g, hg, hgd⟩ := grads_sweep_get dim S (v_table dim S p v_size) o.grads k (by omega) hk'
  refine ⟨g, hg, fun d hd => ?_⟩
  rw [hgd d hd, bulk_grad_eq dim S p v_size k junk d hdim3 hd (hv2 hreq) hcoh hk']

theorem compute_grad_grads_get [MulOneClass R] [Zero R] (dim : Nat) (S : PolynomialSpace R)
    (p : Nat → R) (o : Outputs R) (k : Nat) (junk : Nat × Nat × Nat) (hdim3 : dim ≤ 3)
    (hok : (compute dim S p o).1 = Except.ok ()) (hk : k < n_pols dim S)
    (hreq : o.grad_grads.length = n_pols dim S) :
    ∃ H, (compute dim S p o).2.grad_grads[k]? = some H ∧
      ∀ d1 d2, d1 < dim → d2 < dim → H d1 d2 = compute_grad_grad dim S k p junk d1 d2 := by
  obtain ⟨v_size, _, _, hv3, hout⟩ := compute_ok_outputs dim S p o hok
  have hlen : (enumeration dim S.n_1d).length = n_pols dim S := length_enumeration dim S.n_1d hdim3
  have hk' : k < (enumeration dim S.n_1d).length := by omega
  rw [hout]
  simp only [if_pos hreq]
  obtain ⟨H, hH, hHd⟩ :=
    grad_grads_sweep_get dim S (v_table dim S p v_size) o.grad_grads k (by omega) hk'
  refine ⟨H, hH, fun d1 d2 h1 h2 => ?_⟩
  rw [hHd d1 d2 h1 h2, hv3 hreq, bulk_grad_grad_eq dim S p k junk d1 d2 hdim3 h1 h2 hk']

end TableAndFrame

/-! ## Claims C12 and C16 -/

/-- C12: in a successful call of `compute` with at least one output requested
(`1 ≤ dim ≤ 3`), `v_size` is 3 when the Hessians are requested, 2 when the
gradients but not the Hessians are, and 1 when only the values are; the outputs
are computed from the table built with that `v_size`; every cell `v(d,i)`,
`d < dim`, `i < n_1d`, of the table has length `v_size`; and every table read
`v[d][i][o]` made by a requested sweep has its derivative order `o` below the
length of the cell it reads. -/
theorem table_cells_filled {R : Type} [Mul R] [One R] [Zero R] (dim : Nat)
    (S : PolynomialSpace R) (p : Nat → R) (o : Outputs R) (hdim : 1 ≤ dim) (hdim3 : dim ≤ 3)
    (hok : (compute dim S p o).1 = Except.ok ())
    (hreq : o.values.length = n_pols dim S ∨ o.grads.length = n_pols dim S ∨
      o.grad_grads.length = n_pols dim S) :
    compute_v_size dim S o =
      (if o.grad_grads.length = n_pols dim S then 3
        else if o.grads.length = n_pols dim S then 2 else 1) ∧
    (compute dim S p o).2 =
      ⟨if o.values.length = n_pols dim S then
          (values_sweep dim S.n_1d (v_table dim S p (compute_v_size dim S o)) o.values).out
        else o.values,
        if o.grads.length = n_pols dim S then
          (grads_sweep dim S.n_1d (v_table dim S p (compute_v_size dim S o)) o.grads).out
        else o.grads,
        if o.grad_grads.length = n_pols dim S then
          (grad_grads_sweep dim S.n_1d (v_table dim S p (compute_v_size dim S o))
            o.grad_grads).out
        else o.grad_grads⟩ ∧
    (∀ d i, d < dim → i < S.n_1d →
      (v_cell (v_table dim S p (compute_v_size dim S o)) d i).length = compute_v_size dim S o) ∧
    (o.values.length = n_pols dim S → ∀ t ∈ enumeration dim S.n_1d, ∀ r ∈ values_reads dim t,
      r.2.2 < (v_cell (v_table dim S p (compute_v_size dim S o)) r.1 r.2.1).length) ∧
    (o.grads.length = n_pols dim S → ∀ t ∈ enumeration dim S.n_1d, ∀ r ∈ grads_reads dim t,
      r.2.2 < (v_cell (v_table dim S p (compute_v_size dim S o)) r.1 r.2.1).length) ∧
    (o.grad_grads.length = n_pols dim S →
      ∀ t ∈ enumeration dim S.n_1d, ∀ r ∈ grad_grads_reads dim t,
        r.2.2 < (v_cell (v_table dim S p (compute_v_size dim S o)) r.1 r.2.1).length) := by
  have hsize : compute_v_size dim S o =
      (if o.grad_grads.length = n_pols dim S then 3
        else if o.grads.length = n_pols dim S then 2 else 1) := by
    unfold compute_v_size
    split_ifs <;> first | rfl | (exfalso; tauto)
  have hread : ∀ t ∈ enumeration dim S.n_1d, ∀ d i j, d < dim →
      (i = axis_index t d) → j < compute_v_size dim S o →
      j < (v_cell (v_table dim S p (compute_v_size dim S o)) d i).length := by
    intro t ht d i j hd hi hj
    have hb := valid_lt_bound dim S.n_1d t ((mem_enumeration dim S.n_1d t).mp ht)
    have hi' : i < S.n_1d := by
      subst hi
      unfold axis_index
      split_ifs <;> omega
    rw [v_cell_table_length dim S p _ d i hd hi']
    exact hj
  refine ⟨hsize, compute_ok_outputs_v_size dim S p o hok,
    fun d i hd hi => v_cell_table_length dim S p _ d i hd hi, ?_, ?_, ?_⟩
  · intro hv t ht r hr
    have h1 : 1 ≤ compute_v_size dim S o := by rw [hsize]; split_ifs <;> omega
    simp only [values_reads, List.mem_append, List.mem_singleton] at hr
    rcases hr with (rfl | hr) | hr
    · exact hread t ht 0 _ 0 (by omega) (by simp [axis_index]) (by omega)
    · split_ifs at hr with hd
      · simp only [List.mem_singleton] at hr; subst hr
        exact hread t ht 1 _ 0 (by omega) (by simp [axis_index]) (by omega)
      · simp at hr
    · split_ifs at hr with hd
      · simp only [List.mem_singleton] at hr; subst hr
        exact hread t ht 2 _ 0 (by omega) (by simp [axis_index]) (by omega)
      · simp at hr
  · intro hv t ht r hr
    have h2 : 2 ≤ compute_v_size dim S o := by rw [hsize]; split_ifs <;> omega
    simp only [grads_reads, List.mem_flatMap, List.mem_range, List.mem_append,
      List.mem_singleton] at hr
    obtain ⟨d, _, (rfl | hr) | hr⟩ := hr
    · exact hread t ht 0 _ _ (by omega) (by simp [axis_index]) (by dsimp only; split_ifs <;> omega)
    · split_ifs at hr with hd h1
      · simp only [List.mem_singleton] at hr; subst hr
        exact hread t ht 1 _ _ (by omega) (by simp [axis_index]) (by dsimp only; omega)
      · simp only [List.mem_singleton] at hr; subst hr
        exact hread t ht 1 _ _ (by omega) (by simp [axis_index]) (by dsimp only; omega)
      · simp at hr
    · split_ifs at hr with hd h1
      · simp only [List.mem_singleton] at hr; subst hr
        exact hread t ht 2 _ _ (by omega) (by simp [axis_index]) (by dsimp only; omega)
      · simp only [List.mem_singleton] at hr; subst hr
        exact hread t ht 2 _ _ (by omega) (by simp [axis_index]) (by dsimp only; omega)
      · simp at hr
  · intro hv t ht r hr
    have h3 : compute_v_size dim S o = 3 := by rw [hsize, if_pos hv]
    simp only [grad_grads_reads, List.mem_flatMap, List.mem_range, List.mem_append,
      List.mem_singleton] at hr
    obtain ⟨d1, _, d2, _, (rfl | hr) | hr⟩ := hr
    · exact hread t ht 0 _ _ (by omega) (by simp [axis_index])
        (by rw [h3]; dsimp only; split_ifs <;> omega)
    · by_cases hd : dim > 1
      · simp only [if_pos hd, List.mem_singleton] at hr; subst hr
        exact hread t ht 1 _ _ (by omega) (by simp [axis_index])
          (by rw [h3]; dsimp only; split_ifs <;> omega)
      · simp [hd] at hr
    · by_cases hd : dim > 2
      · simp only [if_pos hd, List.mem_singleton] at hr; subst hr
        exact hread t ht 2 _ _ (by omega) (by simp [axis_index])
          (by rw [h3]; dsimp only; split_ifs <;> omega)
      · simp [hd] at hr

/-- Instance of C12: `dim = 2`, the monomials `1, t, t^2`, values and gradients
requested, Hessians not: the cells have length 2. -/
theorem table_cells_filled_witness :
    (1 ≤ 2 ∧ 2 ≤ 3) ∧
    compute_v_size 2 monomials3
        ⟨List.replicate 6 0, List.replicate 6 (fun _ => 0), []⟩ = 2 ∧
    ∀ d i, d < 2 → i < monomials3.n_1d →
      (v_cell (v_table 2 monomials3 (fun _ => 1)
        (compute_v_size 2 monomials3
          ⟨List.replicate 6 0, List.replicate 6 (fun _ => 0), []⟩)) d i).length
        = compute_v_size 2 monomials3 ⟨List.replicate 6 0, List.replicate 6 (fun _ => 0), []⟩ :=
  have h := table_cells_filled 2 monomials3 (fun _ => 1)
    ⟨List.replicate 6 0, List.replicate 6 (fun _ => 0), []⟩ (by decide) (by decide) rfl
    (Or.inl (by decide))
  ⟨by decide, h.1, h.2.2.1⟩

/-- C16: `compute` writes only what was requested.  After every call an output
vector passed with length 0 is still empty and a requested one still has length
`n_pols`.  For `dim` in {1,2,3} and 1-D polynomials that return the same
derivative of order `j` however many derivatives are requested, the content of
a requested output is the same in any two successful calls at the same point,
whatever the other two outputs of each call are (requested or not) and
whatever the vectors held before: the values as whole vectors, the gradients
and Hessians in every component below `dim`. -/
theorem compute_writes_only_requested {R : Type} [MulOneClass R] [Zero R] (dim : Nat)
    (S : PolynomialSpace R) (p : Nat → R) (o o' : Outputs R) (hdim : 1 ≤ dim) (hdim3 : dim ≤ 3)
    (hcoh : ∀ i, i < S.n_1d → (S.polynomials i).Coherent)
    (hok : (compute dim S p o).1 = Except.ok ())
    (hok' : (compute dim S p o').1 = Except.ok ()) :
    ((o.values.length = 0 → (compute dim S p o).2.values = []) ∧
      (o.grads.length = 0 → (compute dim S p o).2.grads = []) ∧
      (o.grad_grads.length = 0 → (compute dim S p o).2.grad_grads = [])) ∧
    ((o.values.length = n_pols dim S → (compute dim S p o).2.values.length = n_pols dim S) ∧
      (o.grads.length = n_pols dim S → (compute dim S p o).2.grads.length = n_pols dim S) ∧
      (o.grad_grads.length = n_pols dim S →
        (compute dim S p o).2.grad_grads.length = n_pols dim S)) ∧
    (o.values.length = n_pols dim S → o'.values.length = n_pols dim S →
      (compute dim S p o).2.values = (compute dim S p o').2.values) ∧
    (o.grads.length = n_pols dim S → o'.grads.length = n_pols dim S →
      ∀ k, k < n_pols dim S → ∃ g g', (compute dim S p o).2.grads[k]? = some g ∧
        (compute dim S p o').2.grads[k]? = some g' ∧ ∀ d, d < dim → g d = g' d) ∧
    (o.grad_grads.length = n_pols dim S → o'.grad_grads.length = n_pols dim S →
      ∀ k, k < n_pols dim S → ∃ H H', (compute dim S p o).2.grad_grads[k]? = some H ∧
        (compute dim S p o').2.grad_grads[k]? = some H' ∧
        ∀ d1 d2, d1 < dim → d2 < dim → H d1 d2 = H' d1 d2) := by
  obtain ⟨l1, l2, l3⟩ := compute_lengths dim S p o
  obtain ⟨l1', _, _⟩ := compute_lengths dim S p o'
  refine ⟨⟨fun h => ?_, fun h => ?_, fun h => ?_⟩, ⟨fun h => ?_, fun h => ?_, fun h => ?_⟩,
    fun h h' => ?_, fun h h' k hk => ?_, fun h h' k hk => ?_⟩
  · exact List.eq_nil_of_length_eq_zero (by omega)
  · exact List.eq_nil_of_length_eq_zero (by omega)
  · exact List.eq_nil_of_length_eq_zero (by omega)
  · omega
  · omega
  · omega
  · apply List.ext_getElem?
    intro k
    rcases Nat.lt_or_ge k (n_pols dim S) with hk | hk
    · rw [compute_values_get dim S p o k hdim hdim3 hcoh hok hk h,
        compute_values_get dim S p o' k hdim hdim3 hcoh hok' hk h']
    · rw [List.getElem?_eq_none (by omega), List.getElem?_eq_none (by omega)]
  · obtain ⟨g, hg, hgd⟩ := compute_grads_get dim S p o k (0, 0, 0) hdim3 hcoh hok hk h
    obtain ⟨g', hg', hgd'⟩ := compute_grads_get dim S p o' k (0, 0, 0) hdim3 hcoh hok' hk h'
    exact ⟨g, g', hg, hg', fun d hd => by rw [hgd d hd, hgd' d hd]⟩
  · obtain ⟨H, hH, hHd⟩ := compute_grad_grads_get dim S p o k (0, 0, 0) hdim3 hok hk h
    obtain ⟨H', hH', hHd'⟩ := compute_grad_grads_get dim S p o' k (0, 0, 0) hdim3 hok' hk h'
    exact ⟨H, H', hH, hH', fun d1 d2 h1 h2 => by rw [hHd d1 d2 h1 h2, hHd' d1 d2 h1 h2]⟩

/-- Instance of C16: `dim = 2`, the monomials `1, t, t^2`, the point `(1,1)`;
values requested alone in one call, together with gradients and Hessians in the
other. -/
theorem compute_writes_only_requested_witness :
    (1 ≤ 2 ∧ 2 ≤ 3) ∧
    (compute 2 monomials3 (fun _ => 1) ⟨List.replicate 6 0, [], []⟩).2.grads = [] ∧
    (compute 2 monomials3 (fun _ => 1) ⟨List.replicate 6 0, [], []⟩).2.values
      = (compute 2 monomials3 (fun _ => 1)
          ⟨List.replicate 6 5, List.replicate 6 (fun _ => 0),
            List.replicate 6 (fun _ _ => 0)⟩).2.values :=
  have h := compute_writes_only_requested 2 monomials3 (fun _ => 1)
    ⟨List.replicate 6 0, [], []⟩
    ⟨List.replicate 6 5, List.replicate 6 (fun _ => 0), List.replicate 6 (fun _ _ => 0)⟩
    (by decide) (by decide) (fun i _ => monomial_coherent i) rfl rfl
  ⟨by decide, h.1.2.1 rfl, h.2.2.1 rfl rfl⟩

/-! ## Claim C14 -/

theorem real_monomial_exact (i : Nat) (x : Real) :
    (real_monomial i).value_entry 2 x 0 = (real_monomial i).value x ∧
    HasDerivAt (real_monomial i).value ((real_monomial i).value_entry 2 x 1) x := by
  constructor
  · simp [real_monomial]
  · simpa [real_monomial] using hasDerivAt_pow i x

/-- C14: over the reals, for `dim ≤ 3`, `k < n_pols` and an axis `d < dim`, when
every 1-D polynomial returns its exact value and its exact first derivative,
component `d` of `compute_grad(k,p)` is the partial derivative along axis `d`
at `p` of the function `q ↦ compute_value(k,q)`: the derivative at `p[d]` of
`x ↦ compute_value(k, p with coordinate d replaced by x)`.  Equivalently, the
remainder `compute_value(k, p + h e_d) - compute_value(k,p) - h compute_grad(k,p)[d]`
is of smaller order than `h` as `h` tends to 0. -/
theorem compute_grad_is_partial_derivative (dim : Nat) (S : PolynomialSpace Real) (k : Nat)
    (p : Nat → Real) (junk : Nat × Nat × Nat) (d : Nat) (hdim3 : dim ≤ 3)
    (hk : k < n_pols dim S) (hd : d < dim)
    (hexact : ∀ i, i < S.n_1d → ∀ x,
      (S.polynomials i).value_entry 2 x 0 = (S.polynomials i).value x ∧
      HasDerivAt (S.polynomials i).value ((S.polynomials i).value_entry 2 x 1) x) :
    HasDerivAt (fun x => compute_value dim S k (Function.update p d x))
      (compute_grad dim S k p junk d) (p d) ∧
    Asymptotics.IsLittleO (nhds 0)
      (fun h : Real => compute_value dim S k (Function.update p d (p d + h))
        - compute_value dim S k p - h * compute_grad dim S k p junk d)
      (fun h => h) := by
  have hk' : k < (enumeration dim S.n_1d).length := by
    rw [length_enumeration dim S.n_1d hdim3]; exact hk
  have hb := valid_lt_bound dim S.n_1d _
    ((mem_enumeration dim S.n_1d _).mp (List.getElem_mem hk'))
  have e0 := fun x => (hexact _ hb.1 x).1
  have e1 := fun x => (hexact _ hb.2.1 x).1
  have e2 := fun x => (hexact _ hb.2.2 x).1
  have h0 := fun x => (hexact _ hb.1 x).2
  have h1 := fun x => (hexact _ hb.2.1 x).2
  have h2 := fun x => (hexact _ hb.2.2 x).2
  have hderiv : HasDerivAt (fun x => compute_value dim S k (Function.update p d x))
      (compute_grad dim S k p junk d) (p d) := by
    rw [compute_grad_eq dim S k p junk d hdim3 hd]
    simp only [index_array_lt _ _ _ _ _ hk']
    unfold compute_value axis_product
    rw [compute_index_lt _ _ _ _ _ _ hk']
    interval_cases dim <;> interval_cases d <;>
      simp +decide [List.range_succ, axis_index, e0, e1, e2, Function.update]
    · exact h0 (p 0)
    · exact (h0 (p 0)).mul_const _
    · exact (h1 (p 1)).const_mul _
    · exact ((h0 (p 0)).mul_const _).mul_const _
    · exact ((h1 (p 1)).const_mul _).mul_const _
    · exact (h2 (p 2)).const_mul _
  refine ⟨hderiv, ?_⟩
  have ho := hasDerivAt_iff_isLittleO_nhds_zero.mp hderiv
  simpa [Function.update_eq_self, smul_eq_mul] using ho

/-- Instance of C14: `dim = 2`, the monomials `1, t, t^2` over the reals,
`k = 4`, axis 1. -/
theorem compute_grad_is_partial_derivative_witness :
    (2 ≤ 3 ∧ 4 < n_pols 2 real_monomials3 ∧ 1 < 2) ∧
    HasDerivAt (fun x => compute_value 2 real_monomials3 4 (Function.update (fun _ => 1) 1 x))
      (compute_grad 2 real_monomials3 4 (fun _ => 1) (0, 0, 0) 1) ((fun _ => (1 : Real)) 1) :=
  ⟨by decide,
    (compute_grad_is_partial_derivative 2 real_monomials3 4 (fun _ => 1) (0, 0, 0) 1
      (by decide) (by decide) (by decide) (fun i _ x => real_monomial_exact i x)).1⟩

/-! ## The program's 32-bit `n_pols` against the exact number -/

theorem compute_n_pols_u32_succ (d n : Nat) (hd : 1 ≤ d) :
    compute_n_pols_u32 (d + 1) n =
      { n_pols := (compute_n_pols_u32 d n).n_pols * ((n + d) % 2 ^ 32) % 2 ^ 32
          / ((d + 1) % 2 ^ 32)
        wrapped := (compute_n_pols_u32 d n).wrapped || decide (2 ^ 32 ≤ n + d)
          || decide (2 ^ 32 ≤ (compute_n_pols_u32 d n).n_pols * ((n + d) % 2 ^ 32)) } := by
  obtain ⟨e, rfl⟩ : ∃ e, d = e + 1 := ⟨d - 1, by omega⟩
  unfold compute_n_pols_u32
  simp only [Nat.add_sub_cancel]
  rw [List.range'_1_concat, List.foldl_append]
  simp [Nat.add_comm 1 e]

theorem u32_step_le (n i a b : Nat) (hab : a ≤ b) :
    a * ((n + i) % 2 ^ 32) % 2 ^ 32 / ((i + 1) % 2 ^ 32) ≤ b * (n + i) / (i + 1) ∨
      (i + 1) % 2 ^ 32 ≠ i + 1 := by
  by_cases h : (i + 1) % 2 ^ 32 = i + 1
  · left
    rw [h]
    apply Nat.div_le_div_right
    calc a * ((n + i) % 2 ^ 32) % 2 ^ 32 ≤ a * ((n + i) % 2 ^ 32) := Nat.mod_le _ _
      _ ≤ b * (n + i) := Nat.mul_le_mul hab (Nat.mod_le _ _)
  · right; exact h

theorem n_pols_u32_le (dim n : Nat) (hdim3 : dim ≤ 3) :
    n_pols_u32 dim n ≤ compute_n_pols dim n := by
  have h1 : n_pols_u32 1 n ≤ compute_n_pols 1 n := Nat.le_refl n
  have h2 : n_pols_u32 2 n ≤ compute_n_pols 2 n := by
    unfold n_pols_u32
    rw [compute_n_pols_u32_succ 1 n (by decide), compute_n_pols_succ 1 n (by decide)]
    rcases u32_step_le n 1 _ _ h1 with h | h
    · exact h
    · exact absurd (by decide) h
  have h3 : n_pols_u32 3 n ≤ compute_n_pols 3 n := by
    unfold n_pols_u32
    rw [compute_n_pols_u32_succ 2 n (by decide), compute_n_pols_succ 2 n (by decide)]
    rcases u32_step_le n 2 _ _ h2 with h | h
    · exact h
    · exact absurd (by decide) h
  interval_cases dim
  · exact Nat.le_refl n
  · exact h1
  · exact h2
  · exact h3

theorem small_two (n : Nat) (h : 2 * compute_n_pols 2 n < 2 ^ 32) :
    n + 1 < 2 ^ 32 ∧ n * (n + 1) < 2 ^ 32 := by
  have d1 := compute_n_pols_mul_dvd 1 n (by decide)
  have s1 := compute_n_pols_succ 1 n (by decide)
  have c1 : compute_n_pols 1 n = n := rfl
  rw [c1] at d1 s1
  simp only [Nat.reduceAdd] at d1 s1
  have m1 : compute_n_pols 2 n * 2 = n * (n + 1) := by
    rw [s1]; exact Nat.div_mul_cancel d1
  have hp : n * (n + 1) < 2 ^ 32 := by omega
  refine ⟨?_, hp⟩
  rcases Nat.eq_zero_or_pos n with h0 | h0
  · subst h0; decide
  · nlinarith

theorem small_three (n : Nat) (h : 3 * compute_n_pols 3 n < 2 ^ 32) :
    2 * compute_n_pols 2 n < 2 ^ 32 ∧ n + 2 < 2 ^ 32 ∧
      compute_n_pols 2 n * (n + 2) < 2 ^ 32 := by
  have d1 := compute_n_pols_mul_dvd 1 n (by decide)
  have d2 := compute_n_pols_mul_dvd 2 n (by decide)
  have s1 := compute_n_pols_succ 1 n (by decide)
  have s2 := compute_n_pols_succ 2 n (by decide)
  have c1 : compute_n_pols 1 n = n := rfl
  rw [c1] at d1 s1
  simp only [Nat.reduceAdd] at d1 d2 s1 s2
  have m1 : compute_n_pols 2 n * 2 = n * (n + 1) := by
    rw [s1]; exact Nat.div_mul_cancel d1
  have m2 : compute_n_pols 3 n * 3 = compute_n_pols 2 n * (n + 2) := by
    rw [s2]; exact Nat.div_mul_cancel d2
  have hp2 : compute_n_pols 2 n * (n + 2) < 2 ^ 32 := by omega
  refine ⟨by nlinarith, ?_, hp2⟩
  rcases Nat.eq_zero_or_pos n with h0 | h0
  · subst h0; decide
  · have : 1 ≤ compute_n_pols 2 n := by nlinarith
    nlinarith

theorem compute_n_pols_u32_of_small (dim n : Nat) (hdim : 1 ≤ dim) (hdim3 : dim ≤ 3)
    (h : dim * compute_n_pols dim n < 2 ^ 32) :
    compute_n_pols_u32 dim n = ⟨compute_n_pols dim n, false⟩ := by
  have e1 : compute_n_pols_u32 1 n = ⟨compute_n_pols 1 n, false⟩ := rfl
  have e2 : 2 * compute_n_pols 2 n < 2 ^ 32 →
      compute_n_pols_u32 2 n = ⟨compute_n_pols 2 n, false⟩ := by
    intro h2
    obtain ⟨hs, hp⟩ := small_two n h2
    rw [compute_n_pols_u32_succ 1 n (by decide), e1, compute_n_pols_succ 1 n (by decide)]
    exact u32_step n 1 (compute_n_pols 1 n) hs hp (by decide)
  interval_cases dim
  · exact e1
  · exact e2 h
  · obtain ⟨h2, hs, hp⟩ := small_three n h
    rw [compute_n_pols_u32_succ 2 n (by decide), e2 h2, compute_n_pols_succ 2 n (by decide)]
    exact u32_step n 2 (compute_n_pols 2 n) hs hp (by decide)

theorem n_pols_u32_of_small (dim n : Nat) (hdim : 1 ≤ dim) (hdim3 : dim ≤ 3)
    (hsmall : dim * count_multi_indices dim n < 2 ^ 32) :
    n_pols_u32 dim n = compute_n_pols dim n := by
  rw [count_multi_indices_eq dim n hdim3] at hsmall
  unfold n_pols_u32
  rw [compute_n_pols_u32_of_small dim n hdim hdim3 hsmall]

/-! ## The first row of the canonical enumeration -/

theorem enumeration_first_row (dim n_1d k : Nat) (hk : k < n_1d) :
    (enumeration dim n_1d)[k]? = some (k, 0, 0) := by
  have hz : ∀ m, 1 ≤ m → List.range m = 0 :: (List.range (m - 1)).map Nat.succ := by
    intro m hm
    obtain ⟨e, rfl⟩ : ∃ e, m = e + 1 := ⟨m - 1, by omega⟩
    rw [List.range_succ_eq_map]; rfl
  unfold enumeration
  rw [hz (if dim > 2 then n_1d else 1) (by split_ifs <;> omega), List.flatMap_cons]
  rw [hz (if dim > 1 then n_1d - 0 else 1) (by split_ifs <;> omega), List.flatMap_cons]
  rw [List.append_assoc, List.getElem?_append_left (by simpa using hk)]
  simp [hk]

theorem compute_index_first_row (dim n_1d k nx ny nz : Nat) (hk : k < n_1d) :
    compute_index dim n_1d k nx ny nz = (k, 0, 0) := by
  have h := enumeration_first_row dim n_1d k hk
  obtain ⟨hlt, hget⟩ := List.getElem?_eq_some_iff.mp h
  rw [compute_index_lt _ _ _ _ _ _ hlt, hget]

/-! ## Claims C2, C9, C11, C13 and C17, against the program's 32-bit `n_pols` -/

/-- C2, the claim fails on the code: for `dim = 2` and `n_1d = 65536` the
program's `n_pols` is 32768 (the product `65536 * 65537` wraps around), and the
valid multi-index `(0, 1, 0)` is not decoded from any `k < n_pols`: the indices
below 65536 all decode to the first row `(k, 0, 0)`. -/
theorem compute_index_onto_counterexample :
    n_pols_u32 2 65536 = 32768 ∧ Valid 2 65536 (0, 1, 0) ∧
    ∀ k, k < n_pols_u32 2 65536 → ∀ a b c, compute_index 2 65536 k a b c ≠ (0, 1, 0) := by
  have hN : n_pols_u32 2 65536 = 32768 := by decide
  refine ⟨hN, by decide, fun k hk a b c => ?_⟩
  rw [compute_index_first_row 2 65536 k a b c (by omega)]
  intro h
  have h1 : (0 : Nat) = 1 := congrArg (fun t : Nat × Nat × Nat => t.2.1) h
  exact absurd h1 (by decide)

/-- C2 as amended: for `dim` in {1,2,3} and `n_pols` the 32-bit value that the
program computes, `compute_index` is injective on the linear indices below
`n_pols`, maps them into the valid multi-indices, and counting the valid
multi-indices that precede `decode(k)` in the canonical order gives back `k`;
when `dim` times the true number of multi-indices is below `2^32` (no product
of `compute_n_pols` wraps around) it is also onto: every valid multi-index is
`decode(k)` for some `k < n_pols`.  The contents of the reference arguments
before the call are arbitrary. -/
theorem compute_index_bijection_u32 (dim n_1d : Nat) (hdim : 1 ≤ dim) (hdim3 : dim ≤ 3) :
    (∀ k1 k2 a b c a' b' c', k1 < n_pols_u32 dim n_1d → k2 < n_pols_u32 dim n_1d →
        compute_index dim n_1d k1 a b c = compute_index dim n_1d k2 a' b' c' → k1 = k2) ∧
    (∀ k a b c, k < n_pols_u32 dim n_1d → Valid dim n_1d (compute_index dim n_1d k a b c)) ∧
    (∀ k a b c, k < n_pols_u32 dim n_1d →
        encode_by_count dim n_1d (compute_index dim n_1d k a b c) = k) ∧
    (dim * count_multi_indices dim n_1d < 2 ^ 32 → ∀ t, Valid dim n_1d t →
        ∃ k, k < n_pols_u32 dim n_1d ∧ ∀ a b c, compute_index dim n_1d k a b c = t) := by
  have hle := n_pols_u32_le dim n_1d hdim3
  obtain ⟨hinj, hval, hsurj, henc⟩ := compute_index_bijection_nat dim n_1d hdim3
  refine ⟨?_, ?_, ?_, ?_⟩
  · intro k1 k2 a b c a' b' c' h1 h2 h
    exact hinj k1 k2 a b c a' b' c' (by omega) (by omega) h
  · intro k a b c hk
    exact hval k a b c (by omega)
  · intro k a b c hk
    exact henc k a b c (by omega)
  · intro hsmall t ht
    rw [n_pols_u32_of_small dim n_1d hdim hdim3 hsmall]
    exact hsurj t ht

/-- Instance of C2 as amended at `dim = 3`, `n_1d = 3`: `k = 7` is recovered by
counting, and the valid multi-index `(1, 1, 0)` is reached. -/
theorem compute_index_bijection_u32_witness :
    (1 ≤ 3 ∧ 3 ≤ 3 ∧ 7 < n_pols_u32 3 3 ∧ 3 * count_multi_indices 3 3 < 2 ^ 32 ∧
      Valid 3 3 (1, 1, 0)) ∧
    encode_by_count 3 3 (compute_index 3 3 7 0 0 0) = 7 ∧
    ∃ k, k < n_pols_u32 3 3 ∧ ∀ a b c, compute_index 3 3 k a b c = (1, 1, 0) :=
  have h := compute_index_bijection_u32 3 3 (by decide) (by decide)
  ⟨by decide, h.2.2.1 7 0 0 0 (by decide), h.2.2.2 (by decide) (1, 1, 0) (by decide)⟩

/-- C9, the claim fails on the code: for `dim = 2` and `n_1d = 65536` the
program's `n_pols` is 32768, while the values sweep ends with its counter at
2147516416 and has stored to position 32768, beyond the end of an output
vector of `n_pols` entries. -/
theorem sweeps_overrun_counterexample :
    n_pols_u32 2 monomials65536.n_1d = 32768 ∧
    (values_sweep 2 monomials65536.n_1d (v_table 2 monomials65536 (fun _ => 1) 1)
      (List.replicate 32768 0)).k = 2147516416 ∧
    [32768] ∈ (values_sweep 2 monomials65536.n_1d (v_table 2 monomials65536 (fun _ => 1) 1)
      (List.replicate 32768 0)).log := by
  obtain ⟨hk, hlog⟩ := (sweeps_write_each_position_once_nat 2 monomials65536
    (v_table 2 monomials65536 (fun _ => 1) 1) (List.replicate 32768 0) [] [] (by decide)).1
  have hN : n_pols 2 monomials65536 = 2147516416 := by decide
  refine ⟨by decide, hk.trans hN, ?_⟩
  rw [hlog, hN]
  exact List.mem_map.mpr ⟨32768, List.mem_range.mpr (by decide), rfl⟩

/-- C9 as amended: for `dim` in {1,2,3} and every `n_1d` for which `dim` times
the true number of multi-indices is below `2^32` (no product of
`compute_n_pols` wraps around), with `n_pols` the 32-bit value that the program
computes, each sweep of `compute` ends with its running counter `k` equal to
`n_pols`, and the stores it made are, in program order, exactly one store to
each position `0, .., n_pols-1` (for the gradients one store to each component
`[k][d]`, `d < dim`, for the Hessians one to each entry `[k][d1][d2]`,
`d1, d2 < dim`): every position below `n_pols` is written exactly once and no
position at or beyond `n_pols` is written. -/
theorem sweeps_write_each_position_once_u32 {R : Type} [Mul R] [One R] [Zero R] (dim : Nat)
    (S : PolynomialSpace R) (v : List (List (List R))) (values : List R)
    (grads : List (Nat → R)) (grad_grads : List (Nat → Nat → R)) (hdim : 1 ≤ dim)
    (hdim3 : dim ≤ 3) (hsmall : dim * count_multi_indices dim S.n_1d < 2 ^ 32) :
    ((values_sweep dim S.n_1d v values).k = n_pols_u32 dim S.n_1d ∧
      (values_sweep dim S.n_1d v values).log =
        (List.range (n_pols_u32 dim S.n_1d)).map (fun k => [k])) ∧
    ((grads_sweep dim S.n_1d v grads).k = n_pols_u32 dim S.n_1d ∧
      (grads_sweep dim S.n_1d v grads).log =
        (List.range (n_pols_u32 dim S.n_1d)).flatMap (fun k =>
          (List.range dim).map (fun d => [k, d]))) ∧
    ((grad_grads_sweep dim S.n_1d v grad_grads).k = n_pols_u32 dim S.n_1d ∧
      (grad_grads_sweep dim S.n_1d v grad_grads).log =
        (List.range (n_pols_u32 dim S.n_1d)).flatMap (fun k =>
          (List.range dim).flatMap (fun d1 => (List.range dim).map (fun d2 => [k, d1, d2])))) := by
  rw [n_pols_u32_of_small dim S.n_1d hdim hdim3 hsmall]
  exact sweeps_write_each_position_once_nat dim S v values grads grad_grads hdim3

/-- Instance of C9 as amended: the values sweep for `dim = 2` and the monomials
`1, t, t^2`. -/
theorem sweeps_write_each_position_once_u32_witness :
    (1 ≤ 2 ∧ 2 ≤ 3 ∧ 2 * count_multi_indices 2 monomials3.n_1d < 2 ^ 32) ∧
    (values_sweep 2 monomials3.n_1d (v_table 2 monomials3 (fun _ => 1) 1)
        (List.replicate 6 0)).k = n_pols_u32 2 monomials3.n_1d ∧
    (values_sweep 2 monomials3.n_1d (v_table 2 monomials3 (fun _ => 1) 1)
        (List.replicate 6 0)).log = (List.range (n_pols_u32 2 monomials3.n_1d)).map (fun k => [k]) :=
  ⟨by decide,
    (sweeps_write_each_position_once_u32 2 monomials3 (v_table 2 monomials3 (fun _ => 1) 1)
      (List.replicate 6 0) [] [] (by decide) (by decide) (by decide)).1⟩

/-- C11, the claim fails on the code: for `dim = 2`, `n_1d = 3` (`n_pols = 6`)
and the out-of-range index `k = 6`, the loops of `compute_index` run to their
end (counter 6) and the call returns with its outputs as they were, here
`(7, 8, 9)`; `compute_value` returns the value 1 of the basis function with
multi-index `(0,0,0)`.  No failure is reported on this path. -/
theorem single_index_guard_counterexample :
    n_pols_u32 2 monomials3.n_1d = 6 ∧
    compute_index_scan 2 monomials3.n_1d 6 = Except.ok 6 ∧
    compute_index 2 monomials3.n_1d 6 7 8 9 = (7, 8, 9) ∧
    compute_value 2 monomials3 6 (fun _ => 2) = 1 :=
  ⟨by decide, rfl, by decide, by decide⟩

/-- C11 as amended: an out-of-range single index is not guarded in
`compute_index` and `compute_value`.  For `dim` in {1,2,3}, `n_1d ≥ 1`, `dim`
times the true number of multi-indices below `2^32` (so that the program's
32-bit `n_pols` is that number) and every `k ≥ n_pols`, the loops of
`compute_index` run to their end without a `return` and without a failure, the
call returns with its three outputs unchanged, and `compute_value` returns the
value computed from the multi-index `(0,0,0)` it started with, which is the
multi-index of the basis function 0.  Nothing is said of `compute_grad` and
`compute_grad_grad`. -/
theorem single_index_out_of_range_unguarded {R : Type} [Mul R] [One R] [Zero R] (dim : Nat)
    (S : PolynomialSpace R) (k : Nat) (p : Nat → R) (nx ny nz : Nat)
    (hdim : 1 ≤ dim) (hdim3 : dim ≤ 3) (hn : 1 ≤ S.n_1d)
    (hsmall : dim * count_multi_indices dim S.n_1d < 2 ^ 32)
    (hk : n_pols_u32 dim S.n_1d ≤ k) :
    compute_index_scan dim S.n_1d k = Except.ok (n_pols_u32 dim S.n_1d) ∧
    compute_index dim S.n_1d k nx ny nz = (nx, ny, nz) ∧
    compute_value dim S k p =
      (if dim > 2 then
        (S.polynomials 0).value (p 0) * (S.polynomials 0).value (p 1) * (S.polynomials 0).value (p 2)
      else if dim > 1 then (S.polynomials 0).value (p 0) * (S.polynomials 0).value (p 1)
      else (S.polynomials 0).value (p 0)) ∧
    (∀ a b c, compute_index dim S.n_1d 0 a b c = (0, 0, 0)) := by
  have hN := n_pols_u32_of_small dim S.n_1d hdim hdim3 hsmall
  have hlen : (enumeration dim S.n_1d).length = compute_n_pols dim S.n_1d :=
    length_enumeration dim S.n_1d hdim3
  have hk' : (enumeration dim S.n_1d).length ≤ k := by omega
  refine ⟨?_, compute_index_ge _ _ _ _ _ _ hk', ?_, ?_⟩
  · rw [compute_index_scan_ge dim S.n_1d k hk', hlen, hN]
  · unfold compute_value
    rw [compute_index_ge _ _ _ _ _ _ hk']
    interval_cases dim <;> simp
  · intro a b c
    exact compute_index_first_row dim S.n_1d 0 a b c (by omega)

/-- Instance of C11 as amended: `dim = 2`, the monomials `1, t, t^2`, `k = 6`. -/
theorem single_index_out_of_range_unguarded_witness :
    (1 ≤ 2 ∧ 2 ≤ 3 ∧ 1 ≤ monomials3.n_1d ∧ 2 * count_multi_indices 2 monomials3.n_1d < 2 ^ 32 ∧
      n_pols_u32 2 monomials3.n_1d ≤ 6) ∧
    compute_index 2 monomials3.n_1d 6 7 8 9 = (7, 8, 9) :=
  ⟨by decide,
    (single_index_out_of_range_unguarded 2 monomials3 6 (fun _ => 2) 7 8 9
      (by decide) (by decide) (by decide) (by decide) (by decide)).2.1⟩

/-- C13, the claim fails on the code: for `dim = 3` and `n_1d = 2048`, at step
`i = 2` the variable `n_pols` holds 2098176, its product with `n + i = 2050`
wraps around to 6293504 in 32-bit arithmetic, and 6293504 is not divisible by
`i + 1 = 3`: the division discards the remainder 2 and leaves 2097834. -/
theorem compute_n_pols_u32_inexact_counterexample :
    (compute_n_pols_u32 2 2048).n_pols = 2098176 ∧
    (compute_n_pols_u32 2 2048).n_pols * ((2048 + 2) % 2 ^ 32) % 2 ^ 32 = 6293504 ∧
    ¬ (2 + 1) % 2 ^ 32 ∣ (compute_n_pols_u32 2 2048).n_pols * ((2048 + 2) % 2 ^ 32) % 2 ^ 32 ∧
    6293504 % 3 = 2 ∧
    (compute_n_pols_u32 3 2048).n_pols = 2097834 := by
  decide

/-- C13 as amended: for `dim` in {1,2,3} and every `n` for which `dim` times the
true number of multi-indices is below `2^32` (no product of `compute_n_pols`
wraps around), at every step `i` (`1 ≤ i < dim`) of the loop of
`compute_n_pols` in 32-bit arithmetic the divisor `i + 1` is not zero and the
running product after the multiplication by `n + i` is divisible by `i + 1`, so
that the division discards no remainder.  The value of `n_pols` before step `i`
is the result of `compute_n_pols` for dimension `i`, and step `i` turns it into
the result for dimension `i + 1`.  Over unbounded naturals the divisibility
holds for every `n`. -/
theorem compute_n_pols_u32_exact_division (dim n i : Nat) (hdim3 : dim ≤ 3) (hi : 1 ≤ i)
    (hid : i < dim) (hsmall : dim * count_multi_indices dim n < 2 ^ 32) :
    (i + 1) % 2 ^ 32 ≠ 0 ∧
    (i + 1) % 2 ^ 32 ∣ (compute_n_pols_u32 i n).n_pols * ((n + i) % 2 ^ 32) % 2 ^ 32 ∧
    (compute_n_pols_u32 (i + 1) n).n_pols =
      (compute_n_pols_u32 i n).n_pols * ((n + i) % 2 ^ 32) % 2 ^ 32 / ((i + 1) % 2 ^ 32) ∧
    (compute_n_pols_u32 (i + 1) n).n_pols * ((i + 1) % 2 ^ 32) =
      (compute_n_pols_u32 i n).n_pols * ((n + i) % 2 ^ 32) % 2 ^ 32 ∧
    (i + 1) ∣ compute_n_pols i n * (n + i) := by
  rw [count_multi_indices_eq dim n hdim3] at hsmall
  have hdvd := compute_n_pols_mul_dvd i n hi
  have hsucc := compute_n_pols_u32_succ i n hi
  have key : i + 1 < 2 ^ 32 ∧ n + i < 2 ^ 32 ∧ compute_n_pols i n * (n + i) < 2 ^ 32 ∧
      compute_n_pols_u32 i n = ⟨compute_n_pols i n, false⟩ := by
    have c1 : compute_n_pols 1 n = n := rfl
    have u1 : compute_n_pols_u32 1 n = ⟨compute_n_pols 1 n, false⟩ := rfl
    interval_cases dim <;> interval_cases i
    · obtain ⟨hs, hp⟩ := small_two n hsmall
      exact ⟨by decide, hs, by rw [c1]; exact hp, u1⟩
    · obtain ⟨h2, _, _⟩ := small_three n hsmall
      obtain ⟨hs, hp⟩ := small_two n h2
      exact ⟨by decide, hs, by rw [c1]; exact hp, u1⟩
    · obtain ⟨h2, hs, hp⟩ := small_three n hsmall
      exact ⟨by decide, hs, hp, compute_n_pols_u32_of_small 2 n (by decide) (by decide) h2⟩
  obtain ⟨k1, k2, k3, k4⟩ := key
  have hprod : (compute_n_pols_u32 i n).n_pols * ((n + i) % 2 ^ 32) % 2 ^ 32
      = compute_n_pols i n * (n + i) := by
    rw [k4, Nat.mod_eq_of_lt k2, Nat.mod_eq_of_lt k3]
  have hdiv : (i + 1) % 2 ^ 32 = i + 1 := Nat.mod_eq_of_lt k1
  have hlink : (compute_n_pols_u32 (i + 1) n).n_pols =
      (compute_n_pols_u32 i n).n_pols * ((n + i) % 2 ^ 32) % 2 ^ 32 / ((i + 1) % 2 ^ 32) := by
    rw [hsucc]
  refine ⟨by rw [hdiv]; omega, by rw [hprod, hdiv]; exact hdvd, hlink, ?_, hdvd⟩
  rw [hlink, hprod, hdiv]
  exact Nat.div_mul_cancel hdvd

/-- Instance of C13 as amended at `dim = 3`, `n = 2047`, step `i = 2`. -/
theorem compute_n_pols_u32_exact_division_witness :
    (3 ≤ 3 ∧ 1 ≤ 2 ∧ 2 < 3 ∧ 3 * count_multi_indices 3 2047 < 2 ^ 32) ∧
    (2 + 1) % 2 ^ 32 ∣ (compute_n_pols_u32 2 2047).n_pols * ((2047 + 2) % 2 ^ 32) % 2 ^ 32 :=
  have h : 3 * count_multi_indices 3 2047 < 2 ^ 32 := by
    rw [count_multi_indices_eq 3 2047 (by decide)]; decide
  ⟨⟨by decide, by decide, by decide, h⟩,
    (compute_n_pols_u32_exact_division 3 2047 2 (by decide) (by decide) (by decide) h).2.1⟩

/-- C17, the claim fails on the code: for `dim = 2` and `n_1d = 65536` the
program's `n_pols` is 32768, and for the index `i = 32768`, which is not below
`n_pols`, `compute_index` leaves through its `return` with `(32768, 0, 0)`: the
outputs, `(7, 8, 9)` before the call, are modified, and `compute_value(i,p)` at
`p = (0,0)` is 0 where `compute_value(0,p)` is 1. -/
theorem compute_index_beyond_wrapped_n_pols_counterexample :
    n_pols_u32 2 monomials65536.n_1d ≤ 32768 ∧
    compute_index 2 monomials65536.n_1d 32768 7 8 9 = (32768, 0, 0) ∧
    compute_value 2 monomials65536 32768 (fun _ => 0) = 0 ∧
    compute_value 2 monomials65536 0 (fun _ => 0) = 1 := by
  refine ⟨by decide, compute_index_first_row 2 65536 32768 7 8 9 (by decide), ?_, ?_⟩
  · unfold compute_value
    rw [show monomials65536.n_1d = 65536 from rfl,
      compute_index_first_row 2 65536 32768 0 0 0 (by decide)]
    simp [monomials65536, monomial]
  · unfold compute_value
    rw [show monomials65536.n_1d = 65536 from rfl,
      compute_index_first_row 2 65536 0 0 0 0 (by decide)]
    simp [monomials65536, monomial]

/-- C17 as amended: for `dim` in {1,2,3}, `n_1d ≥ 1`, `dim` times the true
number of multi-indices below `2^32` (so that the program's 32-bit `n_pols` is
that number) and every index `i ≥ n_pols`, the loops of `compute_index` run to
their end (the counter has reached `n_pols`) and the call returns without
having modified `nx`, `ny`, `nz`; consequently `compute_value(i,p)` is
`compute_value(0,p)`, the product of polynomial 0 evaluated on each active
axis, for every point `p`. -/
theorem compute_index_out_of_range_unchanged_u32 {R : Type} [Mul R] [One R] [Zero R]
    (dim : Nat) (S : PolynomialSpace R) (i : Nat) (p : Nat → R) (nx ny nz : Nat)
    (hdim : 1 ≤ dim) (hdim3 : dim ≤ 3) (hn : 1 ≤ S.n_1d)
    (hsmall : dim * count_multi_indices dim S.n_1d < 2 ^ 32)
    (hi : n_pols_u32 dim S.n_1d ≤ i) :
    compute_index_scan dim S.n_1d i = Except.ok (n_pols_u32 dim S.n_1d) ∧
    compute_index dim S.n_1d i nx ny nz = (nx, ny, nz) ∧
    compute_value dim S i p = compute_value dim S 0 p ∧
    compute_value dim S 0 p =
      (if dim > 2 then
        (S.polynomials 0).value (p 0) * (S.polynomials 0).value (p 1) * (S.polynomials 0).value (p 2)
      else if dim > 1 then (S.polynomials 0).value (p 0) * (S.polynomials 0).value (p 1)
      else (S.polynomials 0).value (p 0)) := by
  have hN := n_pols_u32_of_small dim S.n_1d hdim hdim3 hsmall
  rw [hN] at hi ⊢
  exact compute_index_out_of_range_unchanged_nat dim S i p nx ny nz hdim3 hn hi

/-- Instance of C17 as amended: `dim = 2`, the monomials `1, t, t^2`, `i = 9`. -/
theorem compute_index_out_of_range_unchanged_u32_witness :
    (1 ≤ 2 ∧ 2 ≤ 3 ∧ 1 ≤ monomials3.n_1d ∧ 2 * count_multi_indices 2 monomials3.n_1d < 2 ^ 32 ∧
      n_pols_u32 2 monomials3.n_1d ≤ 9) ∧
    compute_value 2 monomials3 9 (fun _ => 2) = compute_value 2 monomials3 0 (fun _ => 2) :=
  ⟨by decide,
    (compute_index_out_of_range_unchanged_u32 2 monomials3 9 (fun _ => 2) 0 0 0
      (by decide) (by decide) (by decide) (by decide) (by decide)).2.2.1⟩

end PolynomialSpace
